import Mathlib

/-!
Verification of the structure-aware statute chunking and hybrid retrieval core
(scripts/chunk-statutes-structured.py, scripts/models/florida_statute.py,
scripts/embed-statutes.py, scripts/rag/query_fl_statutes.py).

The development shallowly embeds the Python code.  Pure functions become Lean
functions over `List Char` / `String`; the regular-expression calls are run on
a small faithful model of the fragment of Python `re` the scripts use
(`re.search` / `re.finditer`, MULTILINE, IGNORECASE, greedy and lazy bounded
repetition over single-character classes, alternation, capture groups);
the SQLite store is modelled as explicit table states with the scripts'
trigger and INSERT OR REPLACE semantics.
-/

namespace StatuteRag

/-! ## A model of the fragment of Python `re` used by the scripts

Every repetition operator in the scripts' patterns has a single-character
class as its body, so repetition is modelled as a primitive on character
classes with a minimum count, an optional maximum count and a laziness flag.
The matcher enumerates candidate end positions in exactly Python's
backtracking priority order (alternation: left branch first; greedy
repetition: longest first; lazy repetition: shortest first), so the head of
the enumeration is the match Python returns. -/

/-- Python `\s` / `str.split()` / `str.strip()` whitespace (ASCII range;
all inputs handled by the scripts are ASCII or use characters outside the
whitespace classes). -/
def isSpacePy (c : Char) : Bool :=
  c = ' ' || c = '\t' || c = '\n' || c = '\r' || c = '\x0b' || c = '\x0c'

/-- Python `\d` (ASCII digits). -/
def isDigitPy (c : Char) : Bool := '0' ≤ c && c ≤ '9'

/-- Character class `[A-Z]`. -/
def isUpperAZ (c : Char) : Bool := 'A' ≤ c && c ≤ 'Z'

/-- Character class `[a-z]`. -/
def isLowerAZ (c : Char) : Bool := 'a' ≤ c && c ≤ 'z'

/-- ASCII lower-casing, the effect of `re.IGNORECASE` on the ASCII inputs
the patterns are applied to. -/
def lowerAscii (c : Char) : Char :=
  if isUpperAZ c then Char.ofNat (c.toNat + 32) else c

/-- Regex abstract syntax for the fragment used by the scripts.
`cls pred lo hi lazy` is a repetition `pred{lo,hi}` (`hi = none` meaning
unbounded) of a single-character class, lazy when `lazy = true`.
`lit ci s` is a literal, compared case-insensitively when `ci = true`.
`bol`/`eol` are multiline `^`/`$`. -/
inductive RE where
  | eps : RE
  | lit : Bool → List Char → RE
  | cls : (Char → Bool) → Nat → Option Nat → Bool → RE
  | seq : RE → RE → RE
  | alt : RE → RE → RE
  | grp : Nat → RE → RE
  | bol : RE
  | eol : RE

/-- Captured groups of a match: `(group index, start, end)` triples.
No group of the scripts' patterns lies under a repetition, so each group is
recorded at most once per match. -/
abbrev Caps := List (Nat × Nat × Nat)

/-- Characters `full[s:e]` (Python slice semantics on character lists). -/
def subL (full : List Char) (s e : Nat) : List Char :=
  (full.drop s).take (e - s)

/-- Does `full` continue at `p` with literal `s` (case-insensitively when
`ci`)?  Returns the end position on success. -/
def litAt (ci : Bool) (full : List Char) (p : Nat) (s : List Char) : Option Nat :=
  let seg := subL full p (p + s.length)
  let eq := if ci then seg.map lowerAscii == s.map lowerAscii else seg == s
  if seg.length == s.length && eq then some (p + s.length) else none

/-- Length of the maximal run of characters satisfying `pred` at `p`. -/
def runLen (pred : Char → Bool) (full : List Char) (p : Nat) : Nat :=
  ((full.drop p).takeWhile pred).length

/-- All ways to match `r` starting at position `p`, as `(end, captures)`
pairs listed in Python's backtracking priority order. -/
def mat (full : List Char) (r : RE) (p : Nat) : List (Nat × Caps) :=
  match r with
  | .eps => [(p, [])]
  | .lit ci s =>
      match litAt ci full p s with
      | some q => [(q, [])]
      | none => []
  | .cls pred lo hi lz =>
      let run := runLen pred full p
      let hi' := match hi with | some h => min h run | none => run
      if lo > hi' then []
      else
        let ks := List.range' lo (hi' + 1 - lo)
        let ks := if lz then ks else ks.reverse
        ks.map (fun k => (p + k, []))
  | .seq r1 r2 =>
      (mat full r1 p).flatMap
        (fun qc => (mat full r2 qc.1).map (fun rc => (rc.1, qc.2 ++ rc.2)))
  | .alt r1 r2 => mat full r1 p ++ mat full r2 p
  | .grp n r1 =>
      (mat full r1 p).map (fun qc => (qc.1, (n, p, qc.1) :: qc.2))
  | .bol => if p == 0 || full.get? (p - 1) == some '\n' then [(p, [])] else []
  | .eol => if p == full.length || full.get? p == some '\n' then [(p, [])] else []

/-- One match: start position, end position, captures. -/
abbrev RMatch := Nat × Nat × Caps

/-- `re.search` scan: try start positions `p, p+1, …` (fuel-bounded), return
the first position admitting a match, with Python's preferred match there. -/
def searchAux (full : List Char) (r : RE) : Nat → Nat → Option RMatch
  | 0, _ => none
  | fuel + 1, p =>
      if p > full.length then none
      else
        match mat full r p with
        | qc :: _ => some (p, qc.1, qc.2)
        | [] => searchAux full r fuel (p + 1)

/-- Model of `re.search`. -/
def reSearch (r : RE) (full : List Char) : Option RMatch :=
  searchAux full r (full.length + 1) 0

/-- `re.finditer` scan: repeated search, resuming after each match (with the
empty-match advance; none of the scripts' patterns can match empty). -/
def findAllAux (full : List Char) (r : RE) : Nat → Nat → List RMatch
  | 0, _ => []
  | fuel + 1, p =>
      match searchAux full r (full.length + 1) p with
      | none => []
      | some m =>
          m :: findAllAux full r fuel (if m.2.1 > m.1 then m.2.1 else m.2.1 + 1)

/-- Model of `re.finditer` (matches in scan order). -/
def findAll (r : RE) (full : List Char) : List RMatch :=
  findAllAux full r (full.length + 2) 0

/-- Text of capture group `n` of a match (groups of the scripts' patterns
always participate when the pattern matches). -/
def groupOf (full : List Char) (cs : Caps) (n : Nat) : List Char :=
  match cs.find? (fun t => t.1 == n) with
  | some t => subL full t.2.1 t.2.2
  | none => []

/-- Python `str.strip()` (whitespace strip both ends). -/
def stripPy (l : List Char) : List Char :=
  ((l.dropWhile isSpacePy).reverse.dropWhile isSpacePy).reverse

/-- Python `str.split()` with no argument: split on whitespace runs, no
empty fields. -/
def splitWsAux : List Char → List Char → List (List Char)
  | [], acc => if acc.isEmpty then [] else [acc.reverse]
  | c :: rest, acc =>
      if isSpacePy c then
        if acc.isEmpty then splitWsAux rest [] else acc.reverse :: splitWsAux rest []
      else splitWsAux rest (c :: acc)

/-- Python `str.split()` on a string. -/
def splitWs (s : String) : List String :=
  (splitWsAux s.toList []).map String.mk

/-! ## chunk-statutes-structured.py: section header recognition -/

/-- `SECTION_HEADER_PATTERN`:
`(?:^|\n)\s*(\d{1,3})\.(\d{2,5})\s+([A-Z][^.\n]+?)(?:\.|—|$)` with
`re.MULTILINE`. -/
def section_header_pattern : RE :=
  .seq (.alt .bol (.lit false ['\n']))
  (.seq (.cls isSpacePy 0 none false)
  (.seq (.grp 1 (.cls isDigitPy 1 (some 3) false))
  (.seq (.lit false ['.'])
  (.seq (.grp 2 (.cls isDigitPy 2 (some 5) false))
  (.seq (.cls isSpacePy 1 none false)
  (.seq (.grp 3 (.seq (.cls isUpperAZ 1 (some 1) false)
                      (.cls (fun c => !(c = '.' || c = '\n')) 1 none true)))
  (.alt (.lit false ['.']) (.alt (.lit false ['—']) .eol))))))))

/-- Character class `[A-Za-z\s,;]`. -/
def isAltTitleChar (c : Char) : Bool :=
  isUpperAZ c || isLowerAZ c || isSpacePy c || c = ',' || c = ';'

/-- `SECTION_ALT_PATTERN`:
`(\d{1,3}\.\d{2,5})\s+([A-Z][A-Za-z\s,;]+?)(?:\.—|\.\s*$|—)` with
`re.MULTILINE`. -/
def section_alt_pattern : RE :=
  .seq (.grp 1 (.seq (.cls isDigitPy 1 (some 3) false)
               (.seq (.lit false ['.']) (.cls isDigitPy 2 (some 5) false))))
  (.seq (.cls isSpacePy 1 none false)
  (.seq (.grp 2 (.seq (.cls isUpperAZ 1 (some 1) false)
                      (.cls isAltTitleChar 1 none true)))
  (.alt (.lit false ['.', '—'])
  (.alt (.seq (.lit false ['.']) (.seq (.cls isSpacePy 0 none false) .eol))
        (.lit false ['—'])))))

/-- The inline last-resort pattern `(\d{1,3})\.(\d{2,5})`. -/
def simple_section_pattern : RE :=
  .seq (.grp 1 (.cls isDigitPy 1 (some 3) false))
  (.seq (.lit false ['.']) (.grp 2 (.cls isDigitPy 2 (some 5) false)))

/-- First strategy of `identify_section_number`: `SECTION_HEADER_PATTERN`
searched in `text[:500]`; on a match, chapter is group 1, section is
`"{g1}.{g2}"` and the title is group 3 stripped. -/
def identifyStrategy1 (text : List Char) : Option (String × String × String) :=
  let win := text.take 500
  match reSearch section_header_pattern win with
  | some m =>
      let g1 := groupOf win m.2.2 1
      let g2 := groupOf win m.2.2 2
      let g3 := groupOf win m.2.2 3
      some (String.mk g1, String.mk (g1 ++ '.' :: g2), String.mk (stripPy g3))
  | none => none

/-- Second strategy: `SECTION_ALT_PATTERN` in `text[:500]`; the chapter is
the part of group 1 before the first `'.'` (`section.split('.')[0]`). -/
def identifyStrategy2 (text : List Char) : Option (String × String × String) :=
  let win := text.take 500
  match reSearch section_alt_pattern win with
  | some m =>
      let g1 := groupOf win m.2.2 1
      let g2 := groupOf win m.2.2 2
      some (String.mk (g1.takeWhile (fun c => c ≠ '.')), String.mk g1,
            String.mk (stripPy g2))
  | none => none

/-- Third strategy: the bare numeric pattern in `text[:200]`, empty title. -/
def identifyStrategy3 (text : List Char) : Option (String × String × String) :=
  let win := text.take 200
  match reSearch simple_section_pattern win with
  | some m =>
      let g1 := groupOf win m.2.2 1
      let g2 := groupOf win m.2.2 2
      some (String.mk g1, String.mk (g1 ++ '.' :: g2), "")
  | none => none

/-- `identify_section_number` (chunk-statutes-structured.py, lines 72-101):
the three strategies tried in order, first success wins. -/
def identify_section_number (text : String) : Option (String × String × String) :=
  match identifyStrategy1 text.toList with
  | some r => some r
  | none =>
      match identifyStrategy2 text.toList with
      | some r => some r
      | none =>
          match identifyStrategy3 text.toList with
          | some r => some r
          | none => none

/-! ## models/florida_statute.py: data model and helpers -/

/-- UTF-8 encoding of one character (`str.encode('utf-8')`). -/
def utf8Char (c : Char) : List Nat :=
  let n := c.toNat
  if n < 0x80 then [n]
  else if n < 0x800 then [0xC0 + n / 64, 0x80 + n % 64]
  else if n < 0x10000 then [0xE0 + n / 4096, 0x80 + n / 64 % 64, 0x80 + n % 64]
  else [0xF0 + n / 262144, 0x80 + n / 4096 % 64, 0x80 + n / 64 % 64, 0x80 + n % 64]

/-- UTF-8 bytes of a string. -/
def utf8Bytes (s : String) : List Nat :=
  s.toList.flatMap utf8Char

/-- 32-bit left rotation. -/
def rotl32 (n w : Nat) : Nat :=
  ((w * 2 ^ n) + w / 2 ^ (32 - n)) % 2 ^ 32

/-- Big-endian 8-byte encoding of a (64-bit) number. -/
def be8 (n : Nat) : List Nat :=
  [n / 2 ^ 56 % 256, n / 2 ^ 48 % 256, n / 2 ^ 40 % 256, n / 2 ^ 32 % 256,
   n / 2 ^ 24 % 256, n / 2 ^ 16 % 256, n / 2 ^ 8 % 256, n % 256]

/-- SHA-1 padding: `0x80`, zeros to 56 mod 64, 8-byte big-endian bit length. -/
def sha1pad (msg : List Nat) : List Nat :=
  let ml := msg.length
  let z := (119 - ml % 64) % 64
  msg ++ 0x80 :: List.replicate z 0 ++ be8 (ml * 8)

/-- Fuel-bounded grouping of a list into chunks of `n` elements. -/
def chunksOfAux (n : Nat) : Nat → List α → List (List α)
  | 0, _ => []
  | _, [] => []
  | fuel + 1, l => l.take n :: chunksOfAux n fuel (l.drop n)

/-- Group a list into chunks of `n` elements (`n > 0`). -/
def chunksOf (n : Nat) (l : List α) : List (List α) :=
  chunksOfAux n l.length l

/-- Big-endian 32-bit words from bytes. -/
def wordsOfBytes (bs : List Nat) : List Nat :=
  (chunksOf 4 bs).map (fun g => g.foldl (fun a b => a * 256 + b) 0)

/-- SHA-1 message-schedule extension step: append
`rotl1 (w[n-3] xor w[n-8] xor w[n-14] xor w[n-16])`. -/
def sha1extendStep (acc : List Nat) (_ : Nat) : List Nat :=
  let n := acc.length
  acc ++ [rotl32 1 (acc.getD (n - 3) 0 ^^^ acc.getD (n - 8) 0 ^^^
                    acc.getD (n - 14) 0 ^^^ acc.getD (n - 16) 0)]

/-- One SHA-1 round on state `(a, b, c, d, e)` for schedule word `w` of
round `i`. -/
def sha1round (st : Nat × Nat × Nat × Nat × Nat) (iw : Nat × Nat) :
    Nat × Nat × Nat × Nat × Nat :=
  let (a, b, c, d, e) := st
  let (i, w) := iw
  let notb := b ^^^ 0xFFFFFFFF
  let (f, k) :=
    if i < 20 then ((b &&& c) ||| (notb &&& d), 0x5A827999)
    else if i < 40 then (b ^^^ c ^^^ d, 0x6ED9EBA1)
    else if i < 60 then ((b &&& c) ||| (b &&& d) ||| (c &&& d), 0x8F1BBCDC)
    else (b ^^^ c ^^^ d, 0xCA62C1D6)
  let tmp := (rotl32 5 a + f + e + k + w) % 2 ^ 32
  (tmp, a, rotl32 30 b, c, d)

/-- SHA-1 compression of one 16-word block into the running digest. -/
def sha1block (h : Nat × Nat × Nat × Nat × Nat) (blk : List Nat) :
    Nat × Nat × Nat × Nat × Nat :=
  let ws := (List.range 64).foldl sha1extendStep blk
  let (h0, h1, h2, h3, h4) := h
  let (a, b, c, d, e) := ((List.range 80).zip ws).foldl sha1round (h0, h1, h2, h3, h4)
  ((h0 + a) % 2 ^ 32, (h1 + b) % 2 ^ 32, (h2 + c) % 2 ^ 32,
   (h3 + d) % 2 ^ 32, (h4 + e) % 2 ^ 32)

/-- Lower-case hex digit. -/
def hexDigit (n : Nat) : Char :=
  if n < 10 then Char.ofNat (48 + n) else Char.ofNat (87 + n)

/-- Fixed-width lower-case hex rendering. -/
def hexNat : Nat → Nat → List Char
  | 0, _ => []
  | w + 1, n => hexNat w (n / 16) ++ [hexDigit (n % 16)]

/-- `hashlib.sha1(bytes).hexdigest()`. -/
def sha1hex (msg : List Nat) : String :=
  let blocks := chunksOf 16 (wordsOfBytes (sha1pad msg))
  let (h0, h1, h2, h3, h4) :=
    blocks.foldl sha1block (0x67452301, 0xEFCDAB89, 0x98BADCFE, 0x10325476, 0xC3D2E1F0)
  String.mk (hexNat 8 h0 ++ hexNat 8 h1 ++ hexNat 8 h2 ++ hexNat 8 h3 ++ hexNat 8 h4)

/-- `Subsection` dataclass. -/
structure Subsection where
  number : String
  text : String
  parent : Option String
  deriving DecidableEq, Repr

/-- Character class `[a-z]` under `re.IGNORECASE`. -/
def isAlphaCi (c : Char) : Bool := isLowerAZ c || isUpperAZ c

/-- Character class `[IVXLC]` under `re.IGNORECASE`. -/
def isRomanCi (c : Char) : Bool :=
  c = 'I' || c = 'V' || c = 'X' || c = 'L' || c = 'C' ||
  c = 'i' || c = 'v' || c = 'x' || c = 'l' || c = 'c'

/-- Optional single literal (`x?`, greedy). -/
def ropt (r : RE) : RE := .alt r .eps

/-- `\s*` -/
def rws : RE := .cls isSpacePy 0 none false

/-- `\s+` -/
def rws1 : RE := .cls isSpacePy 1 none false

/-- `CROSS_REF_PATTERNS['statute']`:
`(?:§|s\.|section|ss\.)\s*(\d{1,3}\.\d{2,5}(?:\(\d+\)(?:\([a-z]\))?)?)`
with `re.IGNORECASE`. -/
def statute_ref_pattern : RE :=
  .seq (.alt (.lit false ['§'])
       (.alt (.lit true "s.".toList)
       (.alt (.lit true "section".toList) (.lit true "ss.".toList))))
  (.seq rws
  (.grp 1 (.seq (.cls isDigitPy 1 (some 3) false)
          (.seq (.lit false ['.'])
          (.seq (.cls isDigitPy 2 (some 5) false)
                (ropt (.seq (.lit false ['('])
                      (.seq (.cls isDigitPy 1 none false)
                      (.seq (.lit false [')'])
                            (ropt (.seq (.lit false ['('])
                                  (.seq (.cls isAlphaCi 1 (some 1) false)
                                        (.lit false [')'])))))))))))))

/-- `CROSS_REF_PATTERNS['chapter']`: `(?:chapter|ch\.)\s*(\d{1,3})`,
`re.IGNORECASE`. -/
def chapter_ref_pattern : RE :=
  .seq (.alt (.lit true "chapter".toList) (.lit true "ch.".toList))
  (.seq rws (.grp 1 (.cls isDigitPy 1 (some 3) false)))

/-- Abbreviated head `Fla\.?\s*R\.?\s*<Abbr>\.?\s*P\.?` of a rule pattern. -/
def ruleAbbrHead (abbr : String) : RE :=
  .seq (.lit true "Fla".toList) (.seq (ropt (.lit false ['.']))
  (.seq rws (.seq (.lit true "R".toList) (.seq (ropt (.lit false ['.']))
  (.seq rws (.seq (.lit true abbr.toList) (.seq (ropt (.lit false ['.']))
  (.seq rws (.seq (.lit true "P".toList) (ropt (.lit false ['.'])))))))))))

/-- Spelled-out head `Florida\s+Rules?\s+of\s+<Name>\s+Procedure`. -/
def ruleLongHead (name : String) : RE :=
  .seq (.lit true "Florida".toList) (.seq rws1
  (.seq (.lit true "Rule".toList) (.seq (ropt (.lit true "s".toList))
  (.seq rws1 (.seq (.lit true "of".toList)
  (.seq rws1 (.seq (.lit true name.toList)
  (.seq rws1 (.lit true "Procedure".toList)))))))))

/-- Tail `\s*(\d+\.\d+)` of the rule patterns. -/
def ruleNumTail : RE :=
  .seq rws (.grp 1 (.seq (.cls isDigitPy 1 none false)
           (.seq (.lit false ['.']) (.cls isDigitPy 1 none false))))

/-- `CROSS_REF_PATTERNS['rule_civil']`, `re.IGNORECASE`. -/
def rule_civil_pattern : RE :=
  .seq (.alt (ruleAbbrHead "Civ") (ruleLongHead "Civil")) ruleNumTail

/-- `CROSS_REF_PATTERNS['rule_criminal']`, `re.IGNORECASE`. -/
def rule_criminal_pattern : RE :=
  .seq (.alt (ruleAbbrHead "Crim") (ruleLongHead "Criminal")) ruleNumTail

/-- `CROSS_REF_PATTERNS['rule_appellate']`: `(?:Fla\.?\s*R\.?\s*App\.?\s*P\.?)\s*(\d+\.\d+)`,
`re.IGNORECASE`. -/
def rule_appellate_pattern : RE :=
  .seq (ruleAbbrHead "App") ruleNumTail

/-- `CROSS_REF_PATTERNS['constitution_fla']`:
`(?:Fla\.?\s*Const\.?|Florida\s+Constitution)\s*,?\s*art\.?\s*([IVXLC]+),?\s*§?\s*(\d+)`,
`re.IGNORECASE`. -/
def constitution_fla_pattern : RE :=
  .seq (.alt (.seq (.lit true "Fla".toList) (.seq (ropt (.lit false ['.']))
             (.seq rws (.seq (.lit true "Const".toList) (ropt (.lit false ['.']))))))
             (.seq (.lit true "Florida".toList) (.seq rws1 (.lit true "Constitution".toList))))
  (.seq rws (.seq (ropt (.lit false [','])) (.seq rws
  (.seq (.lit true "art".toList) (.seq (ropt (.lit false ['.'])) (.seq rws
  (.seq (.grp 1 (.cls isRomanCi 1 none false))
  (.seq (ropt (.lit false [','])) (.seq rws
  (.seq (ropt (.lit false ['§'])) (.seq rws (.grp 2 (.cls isDigitPy 1 none false)))))))))))))

/-- `CROSS_REF_PATTERNS['constitution_us']`:
`(?:U\.?S\.?\s*Const\.?|United\s+States\s+Constitution)`, `re.IGNORECASE`. -/
def constitution_us_pattern : RE :=
  .alt (.seq (.lit true "U".toList) (.seq (ropt (.lit false ['.']))
       (.seq (.lit true "S".toList) (.seq (ropt (.lit false ['.']))
       (.seq rws (.seq (.lit true "Const".toList) (ropt (.lit false ['.']))))))))
       (.seq (.lit true "United".toList) (.seq rws1
       (.seq (.lit true "States".toList) (.seq rws1 (.lit true "Constitution".toList)))))

/-- The three cross-reference category lists. -/
structure CrossRefs where
  statutes : List String
  rules : List String
  constitution : List String
  deriving DecidableEq, Repr

/-- `if ref not in acc: acc.append(ref)` — append preserving first
occurrence. -/
def appendIfNew (acc : List String) (x : String) : List String :=
  if acc.contains x then acc else acc ++ [x]

/-- Normalized citations produced by one pattern over the whole text,
in match order. -/
def refsOfPattern (r : RE) (pre post : String) (t : List Char) : List String :=
  (findAll r t).map (fun m => pre ++ String.mk (groupOf t m.2.2 1) ++ post)

/-- `extract_cross_references` (florida_statute.py, lines 148-191). -/
def extract_cross_references (text : String) : CrossRefs :=
  let t := text.toList
  let s1 := (refsOfPattern statute_ref_pattern "§ " "" t).foldl appendIfNew []
  let s2 := (refsOfPattern chapter_ref_pattern "ch. " "" t).foldl appendIfNew s1
  let r1 := (refsOfPattern rule_civil_pattern "Fla. R. Civil. P. " "" t).foldl appendIfNew []
  let r2 := (refsOfPattern rule_criminal_pattern "Fla. R. Criminal. P. " "" t).foldl appendIfNew r1
  let r3 := (refsOfPattern rule_appellate_pattern "Fla. R. Appellate. P. " "" t).foldl appendIfNew r2
  let c1 := ((findAll constitution_fla_pattern t).map (fun m =>
      "Fla. Const. art. " ++ String.mk (groupOf t m.2.2 1) ++ ", § " ++
      String.mk (groupOf t m.2.2 2))).foldl appendIfNew []
  let c2 := if (reSearch constitution_us_pattern t).isSome
            then appendIfNew c1 "U.S. Const." else c1
  { statutes := s2, rules := r3, constitution := c2 }

/-- `SUBSECTION_PATTERNS['level1']`: `^\s*\((\d+)\)\s*` with `re.MULTILINE`. -/
def subsection_level1_pattern : RE :=
  .seq .bol (.seq rws (.seq (.lit false ['('])
  (.seq (.grp 1 (.cls isDigitPy 1 none false))
  (.seq (.lit false [')']) rws))))

/-- The entry built for one first-level marker whose span ends at `en`:
span text stripped, elided at 2000 characters with `"..."`, then cut to
the first 500 characters; `parent` is always `None`. -/
def subsectionEntry (t : List Char) (m : RMatch) (en : Nat) : Subsection :=
  let s0 := stripPy (subL t m.2.1 en)
  let s1 := if s0.length > 2000 then s0.take 2000 ++ "...".toList else s0
  { number := String.mk ('(' :: groupOf t m.2.2 1 ++ [')'])
    text := String.mk (s1.take 500)
    parent := none }

/-- The `enumerate(level1_matches)` loop of `parse_subsections`: each
marker's span runs from just after it (`match.end()`) to the start of the
next marker, or to the end of the text for the last one. -/
def parse_subsections_go (t : List Char) : List RMatch → List Subsection
  | [] => []
  | m :: rest =>
      let en := match rest with
                | m2 :: _ => m2.1
                | [] => t.length
      subsectionEntry t m en :: parse_subsections_go t rest

/-- `parse_subsections` (florida_statute.py, lines 194-220). -/
def parse_subsections (text : String) : List Subsection :=
  parse_subsections_go text.toList (findAll subsection_level1_pattern text.toList)

/-- `FLORIDA_TITLES` mapping. -/
def florida_titles : List (String × String) :=
  [("I", "CONSTRUCTION OF STATUTES"),
   ("II", "STATE ORGANIZATION"),
   ("III", "LEGISLATIVE BRANCH; COMMISSIONS"),
   ("IV", "EXECUTIVE BRANCH"),
   ("V", "JUDICIAL BRANCH"),
   ("VI", "CIVIL PRACTICE AND PROCEDURE"),
   ("VII", "EVIDENCE"),
   ("VIII", "LIMITATIONS"),
   ("IX", "ELECTORS AND ELECTIONS"),
   ("X", "PUBLIC OFFICERS, EMPLOYEES, AND RECORDS"),
   ("XI", "COUNTY ORGANIZATION AND INTERGOVERNMENTAL RELATIONS"),
   ("XII", "MUNICIPALITIES"),
   ("XIII", "PLANNING AND DEVELOPMENT"),
   ("XIV", "TAXATION AND FINANCE"),
   ("XV", "HOMESTEAD AND EXEMPTIONS"),
   ("XVI", "WATERS AND WATER SUPPLY"),
   ("XVII", "MILITARY AFFAIRS AND RELATED MATTERS"),
   ("XVIII", "PUBLIC LANDS AND PROPERTY"),
   ("XIX", "PUBLIC BUSINESS"),
   ("XX", "PUBLIC TRUSTS"),
   ("XXI", "PUBLIC HEALTH"),
   ("XXII", "PUBLIC WELFARE"),
   ("XXIII", "MOTOR VEHICLES"),
   ("XXIV", "VESSELS"),
   ("XXV", "AVIATION"),
   ("XXVI", "PUBLIC TRANSPORTATION"),
   ("XXVII", "RAILROADS AND OTHER REGULATED UTILITIES"),
   ("XXVIII", "NATURAL RESOURCES; CONSERVATION, RECLAMATION, AND USE"),
   ("XXIX", "PUBLIC HEALTH"),
   ("XXX", "SOCIAL WELFARE"),
   ("XXXI", "LABOR"),
   ("XXXII", "REGULATION OF PROFESSIONS AND OCCUPATIONS"),
   ("XXXIII", "REGULATION OF TRADE, COMMERCE, INVESTMENTS, AND SOLICITATIONS"),
   ("XXXIV", "ALCOHOLIC BEVERAGES AND TOBACCO"),
   ("XXXV", "AGRICULTURE, HORTICULTURE, AND ANIMAL INDUSTRY"),
   ("XXXVI", "BUSINESS ORGANIZATIONS"),
   ("XXXVII", "INSURANCE"),
   ("XXXVIII", "BANKS AND BANKING"),
   ("XXXIX", "COMMERCIAL RELATIONS"),
   ("XL", "REAL AND PERSONAL PROPERTY"),
   ("XLI", "STATUTE OF FRAUDS, FRAUDULENT TRANSFERS, AND GENERAL ASSIGNMENTS"),
   ("XLII", "ESTATES AND TRUSTS"),
   ("XLIII", "DOMESTIC RELATIONS"),
   ("XLIV", "CIVIL RIGHTS"),
   ("XLV", "TORTS"),
   ("XLVI", "CRIMES"),
   ("XLVII", "CRIMINAL PROCEDURE AND CORRECTIONS"),
   ("XLVIII", "K-20 EDUCATION CODE"),
   ("XLIX", "POSTSECONDARY EDUCATION")]

/-- `get_title_for_chapter`'s hardcoded `chapter_ranges`. -/
def chapter_ranges : List (Nat × Nat × String) :=
  [(1, 14, "I"), (15, 24, "II"), (25, 44, "III"), (45, 89, "IV"),
   (90, 92, "VII"), (93, 99, "VIII"), (100, 109, "IX"), (110, 129, "X"),
   (130, 149, "XI"), (150, 169, "XII"), (170, 199, "XIII"), (200, 299, "XIV"),
   (300, 399, "XVIII"), (400, 499, "XXIX"), (500, 599, "XXXIII"),
   (600, 699, "XXXVI"), (700, 739, "XL"), (740, 769, "XLII"),
   (770, 799, "XLIV"), (800, 899, "XLVI"), (900, 999, "XLVII")]

/-- `get_title_for_chapter` (florida_statute.py, lines 294-331): first range
containing the chapter wins; unmapped chapters yield empty fields. -/
def get_title_for_chapter (chapter_num : Nat) : String × String :=
  match chapter_ranges.find? (fun r => r.1 ≤ chapter_num && chapter_num ≤ r.2.1) with
  | some r => (r.2.2, ((florida_titles.lookup r.2.2).getD ""))
  | none => ("", "")

/-- `FloridaStatute` dataclass. -/
structure FloridaStatute where
  title_number : String := ""
  title_name : String := ""
  chapter_number : String := ""
  chapter_name : String := ""
  section_number : String := ""
  section_title : String := ""
  full_text : String := ""
  subsections : List Subsection := []
  source_url : String := ""
  effective_date : Option String := none
  year : String := "2025"
  statute_refs : List String := []
  rule_refs : List String := []
  constitutional_refs : List String := []
  deriving DecidableEq, Repr

/-- `standard_citation` property. -/
def FloridaStatute.standard_citation (st : FloridaStatute) : String :=
  if st.section_number ≠ "" then
    "Fla. Stat. § " ++ st.section_number ++ " (" ++ st.year ++ ")"
  else if st.chapter_number ≠ "" then
    "Fla. Stat. ch. " ++ st.chapter_number ++ " (" ++ st.year ++ ")"
  else ""

/-- `content_hash` property: SHA-1 of the UTF-8 bytes of `full_text`. -/
def FloridaStatute.content_hash (st : FloridaStatute) : String :=
  sha1hex (utf8Bytes st.full_text)

/-- `id` property: `section_number.replace(".", "-")` (single-character
replacement), falling back to the chapter number. -/
def FloridaStatute.recId (st : FloridaStatute) : String :=
  let sec := if st.section_number ≠ ""
             then String.mk (st.section_number.toList.map
                    (fun c => if c = '.' then '-' else c))
             else st.chapter_number
  "fla-stat-" ++ sec

/-- The JSONL chunk record built by `FloridaStatute.to_chunk` (the nested
`hierarchy` object is flattened into the six hierarchy fields; `rec_type` is
the record's `"type"` key). -/
structure StatuteChunk where
  recId : String
  rec_type : String
  citation : String
  title_number : String
  title_name : String
  chapter_number : String
  chapter_name : String
  section_number : String
  section_title : String
  content : String
  subsections : List Subsection
  ref_statutes : List String
  ref_rules : List String
  ref_constitution : List String
  content_hash : String
  tokens : Nat
  deriving DecidableEq, Repr

/-- `to_chunk` (florida_statute.py, lines 76-96); `tokens` is the
whitespace-delimited word count of `full_text`. -/
def FloridaStatute.to_chunk (st : FloridaStatute) : StatuteChunk :=
  { recId := st.recId
    rec_type := "statute_section"
    citation := st.standard_citation
    title_number := st.title_number
    title_name := st.title_name
    chapter_number := st.chapter_number
    chapter_name := st.chapter_name
    section_number := st.section_number
    section_title := st.section_title
    content := st.full_text
    subsections := st.subsections
    ref_statutes := st.statute_refs
    ref_rules := st.rule_refs
    ref_constitution := st.constitutional_refs
    content_hash := st.content_hash
    tokens := (splitWs st.full_text).length }

/-- Numeric value of a digit string (`int(chapter)`; every chapter string
produced by `identify_section_number` is one to three ASCII digits, so the
`ValueError` branch is unreachable for these inputs). -/
def natOfDigits (l : List Char) : Nat :=
  l.foldl (fun a c => a * 10 + (c.toNat - 48)) 0

/-- Python `str.zfill(4)`. -/
def zfill4 (s : String) : String :=
  if s.length ≥ 4 then s
  else String.mk (List.replicate (4 - s.length) '0') ++ s

/-- `create_statute_from_block` (chunk-statutes-structured.py, lines
104-146).  The `block_id` argument of the source is unused by its body. -/
def create_statute_from_block (block : String) : Option FloridaStatute :=
  match identify_section_number block with
  | none => none
  | some (chapter, sec, title) =>
      let tn := get_title_for_chapter (natOfDigits chapter.toList)
      let refs := extract_cross_references block
      let subs := parse_subsections block
      some
        { title_number := tn.1
          title_name := tn.2
          chapter_number := chapter
          chapter_name := ""
          section_number := sec
          section_title := title
          full_text := block
          subsections := subs
          source_url :=
            "https://www.leg.state.fl.us/statutes/index.cfm?mode=View%20Statutes&SubMenu=1&App_mode=Display_Statute&Search_String=&URL="
            ++ zfill4 chapter ++ "-" ++ zfill4 chapter ++ "/" ++ chapter ++ "/"
            ++ sec ++ ".html"
          statute_refs := refs.statutes
          rule_refs := refs.rules
          constitutional_refs := refs.constitution }

/-- The accumulation loop of `chunk_statutes`: `seen` is the
`seen_sections` set (as the list of section numbers already accepted). -/
def chunk_statutes_go (seen : List String) : List String → List StatuteChunk
  | [] => []
  | b :: bs =>
      match create_statute_from_block b with
      | none => chunk_statutes_go seen bs
      | some st =>
          if seen.contains st.section_number then chunk_statutes_go seen bs
          else st.to_chunk :: chunk_statutes_go (st.section_number :: seen) bs

/-- `chunk_statutes` (chunk-statutes-structured.py, lines 149-217) from the
cleaned block stream onward: the statistics bookkeeping and the JSONL file
output are dropped; the function returns the `chunks` list that the source
writes out, in order. -/
def chunk_statutes (blocks : List String) : List StatuteChunk :=
  chunk_statutes_go [] blocks

/-! ## embed-statutes.py: embedding codec

Python floats are modelled by their IEEE-754 binary64 bit patterns
(natural numbers below `2^64`); a stored 32-bit float is its binary32 bit
pattern.  `struct.pack(f'{n}f', *v)` converts each double to binary32
(round to nearest, ties to even — the C `double`→`float` conversion) and
lays the patterns out in 4 little-endian bytes each (native x86-64/ARM64
byte order); `struct.unpack` reads them back and widens exactly to
binary64. -/

/-- Bit length of a natural number (inputs below `2^64`). -/
def bitlenAux : Nat → Nat → Nat
  | 0, _ => 0
  | fuel + 1, n => if n = 0 then 0 else bitlenAux fuel (n / 2) + 1

/-- Bit length. -/
def bitlen (n : Nat) : Nat := bitlenAux 64 n

/-- Round-to-nearest-even of `n / d` for `d > 0`. -/
def rne (n d : Nat) : Nat :=
  let q := n / d
  let r := n % d
  if 2 * r < d then q
  else if 2 * r > d then q + 1
  else if q % 2 = 0 then q else q + 1

/-- Pack sign, rounded 24-bit significand `r24` (`2^23 ≤ r24 ≤ 2^24`, the
`2^24` overflow case arriving here as `2^23` with a bumped exponent) and
unbiased exponent `ee` into binary32 bits; exponents above 127 overflow to
infinity. -/
def d2sFinish (s r24 : Nat) (ee : Int) : Nat :=
  if ee > 127 then s * 2 ^ 31 + 255 * 2 ^ 23
  else s * 2 ^ 31 + (ee + 127).toNat * 2 ^ 23 + (r24 - 2 ^ 23)

/-- Normal-range conversion: round the value `M * 2^exp2` to a 24-bit
significand at scale `2^(estar - 23)`; a significand overflow to `2^24`
bumps the exponent. -/
def d2sNormal (s M : Nat) (exp2 : Int) : Nat :=
  let estar : Int := ((bitlen M : Int) - 1) + exp2
  let d : Int := exp2 - (estar - 23)
  let r : Nat := if d ≥ 0 then M * 2 ^ d.toNat else rne M (2 ^ (-d).toNat)
  if r = 2 ^ 24 then d2sFinish s (2 ^ 23) (estar + 1) else d2sFinish s r estar

/-- Subnormal-range conversion: round the value `M * 2^exp2` to a multiple
of `2^-149`; a result of `2^23` is the smallest normal, which the flat
encoding below represents correctly. -/
def d2sSub (s M : Nat) (exp2 : Int) : Nat :=
  s * 2 ^ 31 + rne M (2 ^ ((-(exp2 + 149)).toNat))

/-- Finite nonzero conversion: choose the normal or subnormal target by
the value's floor base-2 exponent. -/
def d2sFin (s M : Nat) (exp2 : Int) : Nat :=
  if ((bitlen M : Int) - 1) + exp2 ≥ -126 then d2sNormal s M exp2
  else d2sSub s M exp2

/-- binary64 → binary32 conversion of bit patterns (round to nearest, ties
to even; overflow to infinity; NaN payloads truncated and quieted, the
x86-64 conversion behaviour). -/
def doubleToSingle (b : Nat) : Nat :=
  let s : Nat := b / 2 ^ 63 % 2
  let e : Nat := b / 2 ^ 52 % 2 ^ 11
  let m : Nat := b % 2 ^ 52
  if e = 2047 then
    if m = 0 then s * 2 ^ 31 + 255 * 2 ^ 23
    else s * 2 ^ 31 + 255 * 2 ^ 23 + (m / 2 ^ 29 ||| 2 ^ 22)
  else
    let M : Nat := if e = 0 then m else 2 ^ 52 + m
    if M = 0 then s * 2 ^ 31
    else d2sFin s M (if e = 0 then -1074 else (e : Int) - 1075)

/-- binary32 → binary64 widening of bit patterns (exact). -/
def singleToDouble (w : Nat) : Nat :=
  let s := w / 2 ^ 31 % 2
  let ef := w / 2 ^ 23 % 2 ^ 8
  let f := w % 2 ^ 23
  if ef = 255 then s * 2 ^ 63 + 2047 * 2 ^ 52 + f * 2 ^ 29
  else if ef = 0 then
    if f = 0 then s * 2 ^ 63
    else
      let l := bitlen f
      s * 2 ^ 63 + (873 + l) * 2 ^ 52 + (f * 2 ^ (53 - l) - 2 ^ 52)
  else s * 2 ^ 63 + (ef + 896) * 2 ^ 52 + f * 2 ^ 29

/-- Four little-endian bytes of a 32-bit word. -/
def le4 (w : Nat) : List Nat :=
  [w % 256, w / 256 % 256, w / 65536 % 256, w / 16777216 % 256]

/-- Can a double be packed as `'f'`?  `struct.pack` raises `OverflowError`
when a finite double converts to an infinity (inputs that are already
infinite or NaN pack fine). -/
def float32Packable (b : Nat) : Bool :=
  b / 2 ^ 52 % 2 ^ 11 == 2047 || doubleToSingle b / 2 ^ 23 % 2 ^ 8 != 255

/-- `encode_embedding` (embed-statutes.py, lines 114-116):
`struct.pack(f'{len(v)}f', *v)` on a vector of doubles; `none` models the
`OverflowError` on a finite component too large for binary32. -/
def encode_embedding (v : List Nat) : Option (List Nat) :=
  if v.all float32Packable then some (v.flatMap (fun b => le4 (doubleToSingle b)))
  else none

/-- Split a byte list into exact 4-byte words; `none` models the
`struct.error` raised when the buffer is not `4 * (len(blob) // 4)` bytes. -/
def words4 : List Nat → Option (List Nat)
  | [] => some []
  | b0 :: b1 :: b2 :: b3 :: rest =>
      (words4 rest).map
        (fun ws => (b0 + 256 * (b1 + 256 * (b2 + 256 * b3))) :: ws)
  | _ => none

/-- `decode_embedding` (embed-statutes.py, lines 119-122):
`struct.unpack(f'{len(blob)//4}f', blob)`, each single widened back to a
Python float (binary64). -/
def decode_embedding (blob : List Nat) : Option (List Nat) :=
  (words4 blob).map (List.map singleToDouble)

/-! ## embed-statutes.py: cosine similarity

For the similarity arithmetic the float components are modelled as real
numbers (`x ** 0.5` on the non-negative sum of squares is the real square
root); the branch structure — the early `0.0` returns — is the part the
claims are about and is exact. -/

/-- `sum(x * y for x, y in zip(a, b))`. -/
def dotList (a b : List ℝ) : ℝ :=
  ((a.zip b).map (fun p => p.1 * p.2)).sum

/-- `sum(x * x for x in a)`. -/
def sumSq (a : List ℝ) : ℝ :=
  (a.map (fun x => x * x)).sum

open Classical in
/-- `cosine_similarity` (embed-statutes.py, lines 125-134). -/
noncomputable def cosine_similarity (a b : List ℝ) : ℝ :=
  if a.length ≠ b.length then 0
  else
    let dot := dotList a b
    let norm_a := Real.sqrt (sumSq a)
    let norm_b := Real.sqrt (sumSq b)
    if norm_a = 0 ∨ norm_b = 0 then 0
    else dot / (norm_a * norm_b)

/-! ## embed-statutes.py: the Store (SQLite tables, triggers, upsert)

`create_database` (lines 137-184) builds table `chunks` (TEXT primary key
`id`), an external-content FTS5 table `chunks_fts` over
`(id, citation, content)`, an AFTER INSERT trigger mirroring every insert
into the index, and an AFTER DELETE trigger removing the index entry.
Writes go through `INSERT OR REPLACE` (lines 320-334).

SQLite semantics modelled here:
* every `chunks` row has a rowid; an INSERT without explicit rowid uses
  one more than the largest rowid in the table (chosen before REPLACE
  removes conflicting rows);
* `INSERT OR REPLACE` deletes a row conflicting on the primary key and
  then inserts; AFTER INSERT triggers fire for the insert, but a DELETE
  performed by REPLACE conflict resolution fires DELETE triggers only when
  `PRAGMA recursive_triggers` is on — it is off by default and the script
  never enables it, so the AFTER DELETE trigger does not fire on that
  path. -/

/-- A chunk record as bound into the INSERT statement (all columns except
the rowid; `metadata` holds the serialized source record, represented by
the record value itself since serialization is injective). -/
structure RowData (μ : Type) where
  recId : String
  citation : String
  chapter : String
  sect : String
  title : String
  content : String
  metadata : μ
  embedding : Option (List Nat)
  tokens : Nat
  deriving DecidableEq, Repr

/-- A row of the `chunks` table. -/
structure DbRow (μ : Type) where
  rowid : Nat
  data : RowData μ
  deriving DecidableEq, Repr

/-- A row of the `chunks_fts` lexical index. -/
structure FtsRow where
  rowid : Nat
  recId : String
  citation : String
  content : String
  deriving DecidableEq, Repr

/-- The database state: primary table and lexical index. -/
structure Store (μ : Type) where
  chunks : List (DbRow μ)
  fts : List FtsRow
  deriving DecidableEq, Repr

/-- The empty store, as created by `create_database` on a fresh file. -/
def Store.empty : Store μ := { chunks := [], fts := [] }

/-- Largest rowid in the table (0 when empty). -/
def maxRowid (l : List (DbRow μ)) : Nat :=
  l.foldr (fun r m => max r.rowid m) 0

/-- The index entry the AFTER INSERT trigger writes for a new row. -/
def ftsOf (rowid : Nat) (d : RowData μ) : FtsRow :=
  { rowid := rowid, recId := d.recId, citation := d.citation, content := d.content }

/-- One `INSERT OR REPLACE INTO chunks ...` statement (embed-statutes.py,
lines 320-334) together with its trigger effects. -/
def insertOrReplace (st : Store μ) (d : RowData μ) : Store μ :=
  let newRowid := maxRowid st.chunks + 1
  match st.chunks.find? (fun r => r.data.recId == d.recId) with
  | none =>
      { chunks := st.chunks ++ [{ rowid := newRowid, data := d }],
        fts := st.fts ++ [ftsOf newRowid d] }
  | some old =>
      -- REPLACE: the conflicting row is deleted WITHOUT firing the AFTER
      -- DELETE trigger (recursive_triggers is off), then the new row is
      -- inserted and the AFTER INSERT trigger fires.
      { chunks := st.chunks.filter (fun r => r.rowid != old.rowid)
                    ++ [{ rowid := newRowid, data := d }],
        fts := st.fts ++ [ftsOf newRowid d] }

/-- Number of rows with a non-null embedding
(`SELECT COUNT(*) FROM chunks WHERE embedding IS NOT NULL`). -/
def embeddedCount (st : Store μ) : Nat :=
  (st.chunks.filter (fun r => r.data.embedding.isSome)).length

/-! ## embed-statutes.py: batch embedding requests

The embedding service (`POST /api/embed`) is modelled as a function from
the request's text batch to a response. -/

/-- Outcome of one batch request, as distinguished by
`get_ollama_embeddings_batch`: a JSON body with an `"embeddings"` key, a
JSON body without it, a transport error (`URLError`), or a body that is
not JSON (`JSONDecodeError`). -/
inductive Resp where
  | ok : List (List Nat) → Resp
  | noKey : Resp
  | urlError : Resp
  | jsonError : Resp
  deriving DecidableEq, Repr

/-- Is the response one of the three failure modes? -/
def Resp.isFailure : Resp → Bool
  | .ok _ => false
  | _ => true

/-- What one batch contributes to `all_embeddings`: the returned
embeddings on success, `None` per batch member on any failure. -/
def respSeg (svc : List String → Resp) (batch : List String) :
    List (Option (List Nat)) :=
  match svc batch with
  | .ok es => es.map some
  | _ => List.replicate batch.length none

/-- The batch loop of `get_ollama_embeddings_batch` (embed-statutes.py,
lines 52-111): slice off `batch_size` texts, issue one request, extend the
result list with the returned embeddings or with `None` per batch member
on failure; fuel-bounded recursion (the fuel is the text count, sufficient
for any positive batch size). -/
def getBatchAux (svc : List String → Resp) (B : Nat) :
    Nat → List String → List (Option (List Nat)) × List (List String)
  | _, [] => ([], [])
  | 0, _ :: _ => ([], [])
  | fuel + 1, t :: ts =>
      let batch := (t :: ts).take B
      let rest := (t :: ts).drop B
      let r := getBatchAux svc B fuel rest
      (respSeg svc batch ++ r.1, batch :: r.2)

/-- `get_ollama_embeddings_batch`: per-text optional embeddings plus the
trace of batch requests issued (each batch is requested exactly once, in
order; the source has no retry path). -/
def get_ollama_embeddings_batch (svc : List String → Resp) (texts : List String)
    (B : Nat) : List (Option (List Nat)) × List (List String) :=
  getBatchAux svc B texts.length texts

/-! ## embed-statutes.py: the streaming embed loop -/

/-- One parsed JSONL chunk as consumed by `embed_chunks`: the fields the
loop reads (`chunk.get('id')` may be absent; `hierarchy` is flattened to
the three accessed leaves; the `.get(..., '')` defaults are applied). -/
structure ChunkJson where
  jid : Option String
  citation : String
  chapterNumber : String
  sectionNumber : String
  sectionTitle : String
  content : String
  tokens : Nat
  deriving DecidableEq, Repr

/-- `f"{citation}\n\n{content[:2000]}"` — the text embedded for a chunk. -/
def embedTextOf (c : ChunkJson) : String :=
  c.citation ++ "\n\n" ++ String.mk (c.content.toList.take 2000)

/-- `chunk.get('id', f'chunk-{global_idx}')`. -/
def chunkIdAt (idx : Nat) (c : ChunkJson) : String :=
  c.jid.getD ("chunk-" ++ toString idx)

/-- The row bound for chunk `c` at global index `idx` with optional batch
embedding `o` (`None` unless the batch returned a vector for this
position); the blob is `encode_embedding` of the vector. -/
def rowOfChunk (idx : Nat) (c : ChunkJson) (o : Option (Option (List Nat))) :
    RowData ChunkJson :=
  { recId := chunkIdAt idx c
    citation := c.citation
    chapter := c.chapterNumber
    sect := c.sectionNumber
    title := c.sectionTitle
    content := c.content
    metadata := c
    embedding := match o with
                 | some (some v) => encode_embedding v
                 | _ => none
    tokens := c.tokens }

/-- Step 3 of the loop, `for i, chunk in enumerate(batch_chunks)`: insert
the batch's chunks in order via `INSERT OR REPLACE`, pairing chunk `i`
(global index `idx + i`) with `batch_embeddings[i]` (absent when the
embedding list is shorter). -/
def insertBatchChunks (db : Store ChunkJson) :
    List ChunkJson → List (Option (List Nat)) → Nat → Store ChunkJson
  | [], _, _ => db
  | c :: rest, embs, idx =>
      insertBatchChunks (insertOrReplace db (rowOfChunk idx c embs.head?))
        rest embs.tail (idx + 1)

/-- The streaming loop of `embed_chunks` (embed-statutes.py, lines
285-354) from start index `s`: take the next `batch_size` chunks, embed
them with one `get_ollama_embeddings_batch` call, upsert them, continue.
Returns the final store and the trace of service requests.  Commits
(line 337) occur only at batch boundaries, so every state durable after a
crash is the state after some whole number of leading batches. -/
def embedFromAux (svc : List String → Resp) (B : Nat) (chunks : List ChunkJson) :
    Nat → Store ChunkJson → Nat → Store ChunkJson × List (List String)
  | 0, db, _ => (db, [])
  | fuel + 1, db, s =>
      if s < chunks.length then
        let batch := (chunks.drop s).take B
        let texts := batch.map embedTextOf
        let gb := get_ollama_embeddings_batch svc texts B
        let db2 := insertBatchChunks db batch gb.1 s
        let rest := embedFromAux svc B chunks fuel db2 (s + B)
        (rest.1, gb.2 ++ rest.2)
      else (db, [])

/-- The embed loop from a given start index. -/
def embedFrom (svc : List String → Resp) (B : Nat) (db : Store ChunkJson)
    (chunks : List ChunkJson) (start : Nat) : Store ChunkJson × List (List String) :=
  embedFromAux svc B chunks (chunks.length + 1) db start

/-- `embed_chunks` in resume mode (lines 241-262): the start offset is
`SELECT COUNT(*) FROM chunks WHERE embedding IS NOT NULL` (on an empty
table the non-resume path also starts at 0, which coincides with the
count). -/
def embed_chunks_resume (svc : List String → Resp) (B : Nat)
    (db : Store ChunkJson) (chunks : List ChunkJson) :
    Store ChunkJson × List (List String) :=
  embedFrom svc B db chunks (embeddedCount db)

/-! ## Lexical query sanitization (search_fts / search_statutes)

`safe_query = ' '.join(f'"{term}"' for term in query.split())` — both
embed-statutes.py (line 377) and rag/query_fl_statutes.py (line 53, with a
redundant emptiness filter since `str.split()` never yields empty terms).
The FTS5 `MATCH` argument is then lexed by SQLite; the lexer below models
the relevant FTS5 query tokenization: whitespace separates tokens, `"…"`
is a string with `""` as an escaped double quote (an unterminated string
is a query syntax error, modelled as `none`), parentheses are
structural tokens, and a bareword runs to the next whitespace, quote or
parenthesis.  The barewords `AND`, `OR`, `NOT` (upper case) are the
boolean operators of the FTS5 query grammar. -/

/-- `search_fts`'s `safe_query` (embed-statutes.py, lines 370-377). -/
def safe_query (q : String) : String :=
  String.intercalate " " ((splitWs q).map (fun t => "\"" ++ t ++ "\""))

/-- `search_statutes`'s `safe_query` (query_fl_statutes.py, lines 51-53). -/
def safe_query_rag (q : String) : String :=
  String.intercalate " "
    (((splitWs q).filter (fun t => t ≠ "")).map (fun t => "\"" ++ t ++ "\""))

/-- Tokens of an FTS5 query string. -/
inductive FtsTok where
  | phrase : List Char → FtsTok
  | word : List Char → FtsTok
  | lparen : FtsTok
  | rparen : FtsTok
  deriving DecidableEq, Repr

/-- Read a quoted string after the opening `"`; `""` is an escaped quote.
Returns content and remainder, `none` when unterminated. -/
def lexPhraseAux : Nat → List Char → List Char → Option (List Char × List Char)
  | 0, _, _ => none
  | _ + 1, _, [] => none
  | fuel + 1, acc, '"' :: '"' :: rest => lexPhraseAux fuel (acc ++ ['"']) rest
  | _ + 1, acc, '"' :: rest => some (acc, rest)
  | fuel + 1, acc, c :: rest => lexPhraseAux fuel (acc ++ [c]) rest

/-- Is `c` part of a bareword? -/
def isBareChar (c : Char) : Bool :=
  !(isSpacePy c || c = '"' || c = '(' || c = ')')

/-- FTS5 query tokenizer (fuel-bounded). -/
def lexFtsAux : Nat → List Char → Option (List FtsTok)
  | 0, _ => none
  | _ + 1, [] => some []
  | fuel + 1, c :: rest =>
      if isSpacePy c then lexFtsAux fuel rest
      else if c = '"' then
        match lexPhraseAux (rest.length + 1) [] rest with
        | some p => (lexFtsAux fuel p.2).map (fun ts => .phrase p.1 :: ts)
        | none => none
      else if c = '(' then (lexFtsAux fuel rest).map (fun ts => .lparen :: ts)
      else if c = ')' then (lexFtsAux fuel rest).map (fun ts => .rparen :: ts)
      else
        let w := (c :: rest).takeWhile isBareChar
        (lexFtsAux fuel ((c :: rest).dropWhile isBareChar)).map
          (fun ts => .word w :: ts)

/-- Tokenize an FTS5 query string. -/
def fts_tokens (s : String) : Option (List FtsTok) :=
  lexFtsAux (s.length + 1) s.toList

/-- Is a token one of the FTS5 boolean operators? -/
def FtsTok.isOperator : FtsTok → Bool
  | .word s => s == "AND".toList || s == "OR".toList || s == "NOT".toList
  | _ => false

/-! ## Claim-side auxiliary notions -/

/-- Does `pat` occur in `t` at position `p`? -/
def substrAt (t pat : List Char) (p : Nat) : Bool :=
  subL t p (p + pat.length) == pat

/-- Scan for the first occurrence position of a substring. -/
def firstOccAux (t pat : List Char) : Nat → Nat → Option Nat
  | 0, _ => none
  | fuel + 1, p =>
      if p + pat.length > t.length then none
      else if substrAt t pat p then some p
      else firstOccAux t pat fuel (p + 1)

/-- Position of the first occurrence of `pat` in `t`. -/
def firstOcc (t pat : String) : Option Nat :=
  firstOccAux t.toList pat.toList (t.toList.length + 1) 0

/-- Is a list of numbers strictly ascending? -/
def strictAsc : List Nat → Bool
  | [] => true
  | [_] => true
  | a :: b :: r => a < b && strictAsc (b :: r)

/-- Are the strings of `l` listed in order of their first occurrence in
`t`?  (Strings without an occurrence are mapped past the end.) -/
def inFirstOccOrder (t : String) (l : List String) : Bool :=
  strictAsc (l.map (fun s => (firstOcc t s).getD (t.toList.length + 1)))

/-- Does the string start with the section-symbol citation prefix? -/
def isSectionSymRef (x : String) : Bool := x.data.take 2 == ['§', ' ']

/-- Does the string start with the chapter citation prefix? -/
def isChapterRef (x : String) : Bool := x.data.take 4 == "ch. ".toList

/-- Does `x` start with `pre`? -/
def hasPre (pre x : String) : Bool := x.data.take pre.data.length == pre.data

/-- Claim-side: the row written for chunk `c` at global index `i` when the
service returned the embedding `f (embedTextOf c)` for it. -/
def successRow (f : String → List Nat) (i : Nat) (c : ChunkJson) :
    RowData ChunkJson :=
  rowOfChunk i c (some (some (f (embedTextOf c))))

/-- Claim-side: upsert the rows of `l` in order, starting at global
index `s` — the batch-free description of a fully successful embed run. -/
def foldInserts (f : String → List Nat) (db : Store ChunkJson) :
    Nat → List ChunkJson → Store ChunkJson
  | _, [] => db
  | s, c :: rest => foldInserts f (insertOrReplace db (successRow f s c)) (s + 1) rest

/-- Claim-side: the record ids of the chunks, with global indices starting
at `s` (the id defaults to `chunk-{index}` when absent). -/
def idsFrom (s : Nat) : List ChunkJson → List String
  | [] => []
  | c :: rest => chunkIdAt s c :: idsFrom (s + 1) rest

/-- A concrete three-chunk corpus with distinct explicit ids. -/
def c4chunks : List ChunkJson :=
  [⟨some "a", "ca", "7", "7.1", "Ta", "body a", 3⟩,
   ⟨some "b", "cb", "7", "7.2", "Tb", "body b", 3⟩,
   ⟨some "c", "cc", "7", "7.3", "Tc", "body c", 3⟩]

/-- A concrete always-successful embedding service: every text embeds to
the single-component vector with all-zero bits. -/
def c4svc : List String → Resp :=
  fun ts => Resp.ok (ts.map (fun _ => [0]))

/-! # Theorems -/

/-- Claim C1 (code bug): the store synchronization invariant is broken by
the upsert path the claim itself includes.  Writing a record and then
re-writing a record with the same id (`INSERT OR REPLACE` on an existing
id) leaves the primary table with one row but the lexical index with two
rows for that id — the REPLACE step deletes the old primary row without
firing the AFTER DELETE trigger (SQLite fires delete triggers under
REPLACE conflict resolution only when `recursive_triggers` is enabled,
which the script never does), while the AFTER INSERT trigger adds a fresh
index row.  The surviving primary row (id "a") corresponds to two
lexical-index rows, one still carrying the superseded content "c1": the
two views were updated independently. -/
theorem C1_fts_desync_on_upsert :
    (insertOrReplace (insertOrReplace (Store.empty (μ := Unit))
        ⟨"a", "cit", "7", "7.1", "T", "c1", (), none, 0⟩)
        ⟨"a", "cit", "7", "7.1", "T", "c2", (), none, 0⟩).chunks.length = 1 ∧
    (insertOrReplace (insertOrReplace (Store.empty (μ := Unit))
        ⟨"a", "cit", "7", "7.1", "T", "c1", (), none, 0⟩)
        ⟨"a", "cit", "7", "7.1", "T", "c2", (), none, 0⟩).fts.length = 2 ∧
    ((insertOrReplace (insertOrReplace (Store.empty (μ := Unit))
        ⟨"a", "cit", "7", "7.1", "T", "c1", (), none, 0⟩)
        ⟨"a", "cit", "7", "7.1", "T", "c2", (), none, 0⟩).fts.filter
          (fun f => f.recId == "a")).length = 2 ∧
    ((insertOrReplace (insertOrReplace (Store.empty (μ := Unit))
        ⟨"a", "cit", "7", "7.1", "T", "c1", (), none, 0⟩)
        ⟨"a", "cit", "7", "7.1", "T", "c2", (), none, 0⟩).fts.map
          (fun f => f.content)) = ["c1", "c2"] := by decide

/-- Claim C5 (confirmed): `identify_section_number` is the ordered
first-success cascade of the three strategies (primary pattern in the
first 500 characters, fallback pattern in the same window, bare numeric
pattern in the first 200 characters with an empty title); the header
"718.112 Bylaws." yields chapter "718", section "718.112", title
"Bylaws"; and a text matching no strategy yields `none` — a value, not an
exception (the function is total). -/
theorem C5_header_precedence :
    (∀ t : String, identify_section_number t =
        ((identifyStrategy1 t.toList).orElse (fun _ =>
          (identifyStrategy2 t.toList).orElse (fun _ => identifyStrategy3 t.toList)))) ∧
    identify_section_number "718.112 Bylaws." = some ("718", "718.112", "Bylaws") ∧
    identify_section_number "no statute here" = none ∧
    (∀ t : List Char, (identifyStrategy3 t).map (fun r => r.2.2) =
        (identifyStrategy3 t).map (fun _ => "")) := by
  refine ⟨fun t => ?_, by decide, by decide, fun t => ?_⟩
  · unfold identify_section_number Option.orElse
    cases identifyStrategy1 t.toList <;> cases identifyStrategy2 t.toList <;>
      cases identifyStrategy3 t.toList <;> rfl
  · unfold identifyStrategy3
    cases h : reSearch simple_section_pattern (List.take 200 t) <;> simp [h]

/-- Claim C7 (code bug): quoting each whitespace-delimited term does not
neutralize a double quote typed inside a term.  For the query
`a" OR "b` the sanitizer produces `"a"" "OR" ""b"`, which FTS5 lexes as a
phrase, a bare `OR` — the boolean operator — and another phrase: the
user's input changed the query's operator structure.  (Both scripts build
the same string; the claim's sanitization property fails.) -/
theorem C7_quote_injection :
    safe_query "a\" OR \"b" = "\"a\"\" \"OR\" \"\"b\"" ∧
    fts_tokens (safe_query "a\" OR \"b") =
      some [.phrase ['a', '"', ' '], .word ['O', 'R'], .phrase [' ', '"', 'b']] ∧
    ((fts_tokens (safe_query "a\" OR \"b")).getD []).any FtsTok.isOperator = true ∧
    safe_query_rag "a\" OR \"b" = safe_query "a\" OR \"b" := by decide

/-- Claim C8, counterexample: the statutes category is not in order of
first occurrence in the text.  In `"ch. 5 cites § 90.803"` the chapter
citation occurs first (position 0) and the section-symbol citation later
(position 12), yet the extracted statutes list places the section-symbol
citation first, because the section-symbol pattern family is scanned
before the chapter family. -/
theorem C8_counterexample_family_order :
    (extract_cross_references "ch. 5 cites § 90.803").statutes = ["§ 90.803", "ch. 5"] ∧
    firstOcc "ch. 5 cites § 90.803" "ch. 5" = some 0 ∧
    firstOcc "ch. 5 cites § 90.803" "§ 90.803" = some 12 ∧
    inFirstOccOrder "ch. 5 cites § 90.803"
      (extract_cross_references "ch. 5 cites § 90.803").statutes = false := by decide

/-- `to_chunk` carries the statute's section number unchanged. -/
theorem to_chunk_section_number (st : FloridaStatute) :
    st.to_chunk.section_number = st.section_number := rfl

/-- `to_chunk`'s content is the statute's full text. -/
theorem to_chunk_content (st : FloridaStatute) :
    st.to_chunk.content = st.full_text := rfl

/-- Dedup invariant of the `chunk_statutes` loop: with the seen-set `seen`,
the chunks produced for section number `s` are empty when `s` is already
seen, and otherwise exactly the first block (in order) whose statute
carries section number `s`. -/
theorem chunk_statutes_go_filter (s : String) :
    ∀ (blocks : List String) (seen : List String),
      ((chunk_statutes_go seen blocks).filter
          (fun c => c.section_number == s)).map (fun c => c.content) =
        if seen.contains s then []
        else (((blocks.filterMap create_statute_from_block).find?
                  (fun st => st.section_number == s)).map
                (fun st => st.full_text)).toList := by
  intro blocks
  induction blocks with
  | nil => intro seen; simp [chunk_statutes_go]
  | cons b bs ih =>
      intro seen
      simp only [chunk_statutes_go, List.filterMap_cons]
      cases h : create_statute_from_block b with
      | none => simpa using ih seen
      | some st =>
          dsimp only
          by_cases hseen : seen.contains st.section_number
          · rw [if_pos hseen]
            rw [ih seen]
            by_cases hs : st.section_number = s
            · subst hs
              have hmem : st.section_number ∈ seen := by simpa using hseen
              simp [hmem]
            · have hps : (st.section_number == s) = false := by
                simp [hs]
              simp [List.find?_cons_of_neg, hps]
          · rw [if_neg hseen]
            simp only [List.filter_cons, List.map_cons, to_chunk_section_number]
            by_cases hs : st.section_number = s
            · subst hs
              have hmem : st.section_number ∉ seen := by simpa using hseen
              have hcontains : (st.section_number :: seen).contains st.section_number := by
                simp
              simp [ih, hcontains, hseen, List.find?_cons_of_pos, to_chunk_content, hmem]
            · have hps : (st.section_number == s) = false := by simp [hs]
              have hs' : ¬(s = st.section_number) := fun hh => hs hh.symm
              simp [hps, ih, hs', List.find?_cons_of_neg]

/-- Claim C2 (confirmed): deduplication is first-accepted-wins.  For any
run of `chunk_statutes` over a block sequence and any section number `s`,
the output contains exactly the chunks for `s` given by the first block
whose statute recovers `s` (so at most one chunk, and its content is that
first block's full text — never a later block's, regardless of relative
length or completeness). -/
theorem C2_dedup_first_accepted (blocks : List String) (s : String) :
    ((chunk_statutes blocks).filter (fun c => c.section_number == s)).map
        (fun c => c.content) =
      (((blocks.filterMap create_statute_from_block).find?
          (fun st => st.section_number == s)).map
        (fun st => st.full_text)).toList := by
  have h := chunk_statutes_go_filter s blocks []
  simpa [chunk_statutes] using h

/-- The 2000-character elision step never affects the first 500 characters
kept in a subsection entry. -/
theorem elide_take_500 (l : List Char) :
    (if l.length > 2000 then l.take 2000 ++ "...".toList else l).take 500 =
      l.take 500 := by
  by_cases h : l.length > 2000
  · rw [if_pos h, List.take_append_of_le_length (by simp; omega), List.take_take]
    norm_num
  · rw [if_neg h]

/-- Length of a packed string. -/
theorem length_mk (l : List Char) : (String.mk l).length = l.length := rfl

/-- The entry built by the loop, with the 2000-character elision folded
away (it cannot affect the 500-character cut). -/
theorem subsectionEntry_claim (tl : List Char) (m : RMatch) (en : Nat) :
    subsectionEntry tl m en =
      { number := String.mk ('(' :: groupOf tl m.2.2 1 ++ [')'])
        text := String.mk ((stripPy (subL tl m.2.1 en)).take 500)
        parent := none } := by
  unfold subsectionEntry
  dsimp only
  rw [elide_take_500]

/-- The subsection loop yields one entry per match. -/
theorem parse_subsections_go_length (tl : List Char) :
    ∀ ms : List RMatch, (parse_subsections_go tl ms).length = ms.length := by
  intro ms
  induction ms with
  | nil => rfl
  | cons m rest ih => simp [parse_subsections_go, ih]

/-- Indexed description of the subsection loop: entry `i` is built from
match `i` with its span ending at match `i+1`'s start (or the end of the
text). -/
theorem parse_subsections_go_get? (tl : List Char) :
    ∀ (ms : List RMatch) (i : Nat),
      (parse_subsections_go tl ms).get? i =
        (ms.get? i).map (fun m =>
          subsectionEntry tl m
            (match ms.get? (i + 1) with
             | some m2 => m2.1
             | none => tl.length)) := by
  intro ms
  induction ms with
  | nil => intro i; rfl
  | cons m rest ih =>
      intro i
      cases i with
      | zero => cases rest <;> rfl
      | succ j =>
          simp only [parse_subsections_go, List.get?_cons_succ]
          exact ih j

/-- Claim C9 (confirmed): `parse_subsections` returns one entry per
first-level `(digit)` marker at a line start, in source order; entry `i`'s
text is drawn from the span just after marker `i` up to marker `i+1` (or
the end of the text), truncated to at most the fixed 500-character preview
length; and every entry has an empty parent (flat list). -/
theorem C9_subsection_spans (t : String) :
    (parse_subsections t).length = (findAll subsection_level1_pattern t.toList).length ∧
    ((parse_subsections t).all
        (fun s => s.parent == none && s.text.length ≤ 500)) = true ∧
    (∀ i : Nat, (parse_subsections t).get? i =
      ((findAll subsection_level1_pattern t.toList).get? i).map (fun m =>
        { number := String.mk ('(' :: groupOf t.toList m.2.2 1 ++ [')'])
          text := String.mk ((stripPy (subL t.toList m.2.1
              (match (findAll subsection_level1_pattern t.toList).get? (i + 1) with
               | some m2 => m2.1
               | none => t.toList.length))).take 500)
          parent := none })) := by
  refine ⟨parse_subsections_go_length t.toList _, ?_, ?_⟩
  · rw [List.all_eq_true]
    intro s hs
    have hgen : ∀ (ms : List RMatch) (s : Subsection),
        s ∈ parse_subsections_go t.toList ms →
        (s.parent == none && s.text.length ≤ 500) = true := by
      intro ms
      induction ms with
      | nil => intro s hs; cases hs
      | cons m rest ih =>
          intro s hs
          cases hs with
          | head =>
              rw [subsectionEntry_claim]
              refine (Bool.and_eq_true _ _).mpr ⟨rfl, ?_⟩
              simp only [decide_eq_true_eq, length_mk, List.length_take]
              omega
          | tail _ hmem => exact ih _ hmem
    exact hgen _ s hs
  · intro i
    rw [parse_subsections, parse_subsections_go_get? t.toList _ i]
    cases h : (findAll subsection_level1_pattern t.toList).get? i with
    | none => rfl
    | some m => exact congrArg (fun e => some e) (subsectionEntry_claim t.toList m _)

/-- Byte data of an appended string. -/
theorem data_append (a b : String) : (a ++ b).data = a.data ++ b.data := rfl

/-- One `appendIfNew` step preserves distinctness. -/
theorem appendIfNew_nodup {acc : List String} (h : acc.Nodup) (x : String) :
    (appendIfNew acc x).Nodup := by
  unfold appendIfNew
  by_cases hc : acc.contains x
  · rwa [if_pos hc]
  · rw [if_neg hc]
    have hx : x ∉ acc := by simpa using hc
    simp [List.nodup_append, h, hx]

/-- The dedup fold preserves distinctness. -/
theorem foldl_appendIfNew_nodup :
    ∀ (xs acc : List String), acc.Nodup → (xs.foldl appendIfNew acc).Nodup := by
  intro xs
  induction xs with
  | nil => intro acc h; exact h
  | cons x xs ih => intro acc h; exact ih _ (appendIfNew_nodup h x)

/-- The dedup fold only appends, and appends only elements of its input
list. -/
theorem foldl_appendIfNew_extends :
    ∀ (xs acc : List String), ∃ zs,
      xs.foldl appendIfNew acc = acc ++ zs ∧ ∀ z ∈ zs, z ∈ xs := by
  intro xs
  induction xs with
  | nil => intro acc; exact ⟨[], by simp⟩
  | cons x xs ih =>
      intro acc
      rw [List.foldl_cons]
      by_cases hc : acc.contains x
      · rw [show appendIfNew acc x = acc from by unfold appendIfNew; rw [if_pos hc]]
        obtain ⟨zs, hz, hmem⟩ := ih acc
        exact ⟨zs, hz, fun z hzz => List.mem_cons_of_mem _ (hmem z hzz)⟩
      · rw [show appendIfNew acc x = acc ++ [x] from by
              unfold appendIfNew; rw [if_neg hc]]
        obtain ⟨zs, hz, hmem⟩ := ih (acc ++ [x])
        refine ⟨x :: zs, by rw [hz, List.append_assoc]; rfl, ?_⟩
        intro z hzz
        cases hzz with
        | head => exact List.mem_cons_self _ _
        | tail _ hm => exact List.mem_cons_of_mem _ (hmem z hm)

/-- Every citation produced by a pattern scan starts with its fixed
normalization prefix. -/
theorem refsOfPattern_hasPre (r : RE) (pre : String) (t : List Char) :
    ∀ x ∈ refsOfPattern r pre "" t, hasPre pre x = true := by
  intro x hx
  unfold refsOfPattern at hx
  obtain ⟨m, _, rfl⟩ := List.mem_map.mp hx
  unfold hasPre
  rw [data_append, data_append]
  simp [List.take_left]

/-- A string starts with itself as a prefix. -/
theorem hasPre_append (pre s : String) : hasPre pre (pre ++ s) = true := by
  unfold hasPre
  rw [data_append]
  simp [List.take_left]

/-- Claim C8, amended (corrected): `extract_cross_references` is
deterministic and within each category no citation appears twice (the
first occurrence is kept); but a category's citations are grouped by
pattern family in fixed scan order — the statutes list is all
section-symbol citations followed by all chapter citations, the rules
list is Civil then Criminal then Appellate, the constitution list is
Florida-constitution citations then the U.S. Constitution marker — rather
than being globally ordered by first occurrence in the text. -/
theorem C8_dedup_grouped (t : String) :
    extract_cross_references t = extract_cross_references t ∧
    (extract_cross_references t).statutes.Nodup ∧
    (extract_cross_references t).rules.Nodup ∧
    (extract_cross_references t).constitution.Nodup ∧
    (∃ xs ys, (extract_cross_references t).statutes = xs ++ ys ∧
        xs.all (hasPre "§ ") = true ∧ ys.all (hasPre "ch. ") = true) ∧
    (∃ xs ys zs, (extract_cross_references t).rules = xs ++ ys ++ zs ∧
        xs.all (hasPre "Fla. R. Civil. P. ") = true ∧
        ys.all (hasPre "Fla. R. Criminal. P. ") = true ∧
        zs.all (hasPre "Fla. R. Appellate. P. ") = true) ∧
    (∃ xs ys, (extract_cross_references t).constitution = xs ++ ys ∧
        xs.all (hasPre "Fla. Const. art. ") = true ∧
        ys.all (fun z => z == "U.S. Const.") = true) := by
  unfold extract_cross_references
  dsimp only
  refine ⟨rfl, ?_, ?_, ?_, ?_, ?_, ?_⟩
  · exact foldl_appendIfNew_nodup _ _ (foldl_appendIfNew_nodup _ _ List.nodup_nil)
  · exact foldl_appendIfNew_nodup _ _ (foldl_appendIfNew_nodup _ _
      (foldl_appendIfNew_nodup _ _ List.nodup_nil))
  · have h1 : (((findAll constitution_fla_pattern t.toList).map (fun m =>
        "Fla. Const. art. " ++ String.mk (groupOf t.toList m.2.2 1) ++ ", § " ++
        String.mk (groupOf t.toList m.2.2 2))).foldl appendIfNew []).Nodup :=
      foldl_appendIfNew_nodup _ _ List.nodup_nil
    by_cases hus : (reSearch constitution_us_pattern t.toList).isSome
    · rw [if_pos hus]; exact appendIfNew_nodup h1 _
    · rw [if_neg hus]; exact h1
  · obtain ⟨zs1, hz1, hm1⟩ :=
      foldl_appendIfNew_extends (refsOfPattern statute_ref_pattern "§ " "" t.toList) []
    obtain ⟨zs2, hz2, hm2⟩ :=
      foldl_appendIfNew_extends (refsOfPattern chapter_ref_pattern "ch. " "" t.toList)
        ((refsOfPattern statute_ref_pattern "§ " "" t.toList).foldl appendIfNew [])
    refine ⟨zs1, zs2, ?_, ?_, ?_⟩
    · rw [hz2, hz1, List.nil_append]
    · rw [List.all_eq_true]
      exact fun z hz => refsOfPattern_hasPre _ _ _ z (hm1 z hz)
    · rw [List.all_eq_true]
      exact fun z hz => refsOfPattern_hasPre _ _ _ z (hm2 z hz)
  · obtain ⟨zs1, hz1, hm1⟩ :=
      foldl_appendIfNew_extends
        (refsOfPattern rule_civil_pattern "Fla. R. Civil. P. " "" t.toList) []
    obtain ⟨zs2, hz2, hm2⟩ :=
      foldl_appendIfNew_extends
        (refsOfPattern rule_criminal_pattern "Fla. R. Criminal. P. " "" t.toList) _
    obtain ⟨zs3, hz3, hm3⟩ :=
      foldl_appendIfNew_extends
        (refsOfPattern rule_appellate_pattern "Fla. R. Appellate. P. " "" t.toList) _
    refine ⟨zs1, zs2, zs3, ?_, ?_, ?_, ?_⟩
    · rw [hz3, hz2, hz1, List.nil_append]
    · rw [List.all_eq_true]
      exact fun z hz => refsOfPattern_hasPre _ _ _ z (hm1 z hz)
    · rw [List.all_eq_true]
      exact fun z hz => refsOfPattern_hasPre _ _ _ z (hm2 z hz)
    · rw [List.all_eq_true]
      exact fun z hz => refsOfPattern_hasPre _ _ _ z (hm3 z hz)
  · obtain ⟨zs1, hz1, hm1⟩ :=
      foldl_appendIfNew_extends
        ((findAll constitution_fla_pattern t.toList).map (fun m =>
          "Fla. Const. art. " ++ String.mk (groupOf t.toList m.2.2 1) ++ ", § " ++
          String.mk (groupOf t.toList m.2.2 2))) []
    rw [List.nil_append] at hz1
    have hxs : zs1.all (hasPre "Fla. Const. art. ") = true := by
      rw [List.all_eq_true]
      intro z hz
      obtain ⟨m, _, rfl⟩ := List.mem_map.mp (hm1 z hz)
      rw [String.append_assoc, String.append_assoc]
      exact hasPre_append _ _
    rw [hz1]
    by_cases hus : (reSearch constitution_us_pattern t.toList).isSome
    · rw [if_pos hus]
      by_cases hcon : zs1.contains "U.S. Const."
      · rw [show appendIfNew zs1 "U.S. Const." = zs1 from by
              unfold appendIfNew; rw [if_pos hcon]]
        exact ⟨zs1, [], (List.append_nil zs1).symm, hxs, rfl⟩
      · rw [show appendIfNew zs1 "U.S. Const." = zs1 ++ ["U.S. Const."] from by
              unfold appendIfNew; rw [if_neg hcon]]
        exact ⟨zs1, ["U.S. Const."], rfl, hxs, rfl⟩
    · rw [if_neg hus]
      exact ⟨zs1, [], (List.append_nil zs1).symm, hxs, rfl⟩

/-- Claim C6 (confirmed): `cosine_similarity` is total (the model is a
total function — no exception path exists) and returns 0 whenever the
vectors' lengths differ or either vector has zero magnitude (in
particular whenever either vector is all zeros); otherwise it returns the
dot product divided by the product of the magnitudes. -/
theorem C6_cosine_edge_cases (a b : List ℝ) :
    (a.length ≠ b.length → cosine_similarity a b = 0) ∧
    ((∀ x ∈ a, x = 0) → cosine_similarity a b = 0) ∧
    ((∀ x ∈ b, x = 0) → cosine_similarity a b = 0) ∧
    (Real.sqrt (sumSq a) = 0 → cosine_similarity a b = 0) ∧
    (Real.sqrt (sumSq b) = 0 → cosine_similarity a b = 0) ∧
    (a.length = b.length → Real.sqrt (sumSq a) ≠ 0 → Real.sqrt (sumSq b) ≠ 0 →
      cosine_similarity a b =
        dotList a b / (Real.sqrt (sumSq a) * Real.sqrt (sumSq b))) := by
  have hzero : ∀ l : List ℝ, (∀ x ∈ l, x = 0) → Real.sqrt (sumSq l) = 0 := by
    intro l hl
    have : sumSq l = 0 := by
      unfold sumSq
      refine List.sum_eq_zero ?_
      intro y hy
      obtain ⟨x, hx, rfl⟩ := List.mem_map.mp hy
      rw [hl x hx, mul_zero]
    rw [this, Real.sqrt_zero]
  have hna : ∀ h : Real.sqrt (sumSq a) = 0, cosine_similarity a b = 0 := by
    intro h
    unfold cosine_similarity
    by_cases hlen : a.length ≠ b.length
    · rw [if_pos hlen]
    · rw [if_neg hlen]
      dsimp only
      rw [if_pos (Or.inl h)]
  have hnb : ∀ h : Real.sqrt (sumSq b) = 0, cosine_similarity a b = 0 := by
    intro h
    unfold cosine_similarity
    by_cases hlen : a.length ≠ b.length
    · rw [if_pos hlen]
    · rw [if_neg hlen]
      dsimp only
      rw [if_pos (Or.inr h)]
  refine ⟨?_, ?_, ?_, hna, hnb, ?_⟩
  · intro h
    unfold cosine_similarity
    rw [if_pos h]
  · intro h; exact hna (hzero a h)
  · intro h; exact hnb (hzero b h)
  · intro hlen ha hb
    unfold cosine_similarity
    rw [if_neg (by simpa using hlen)]
    dsimp only
    rw [if_neg (by rintro (h | h); exacts [ha h, hb h])]

/-- Witness for C6 at concrete inputs: a length mismatch yields 0, an
all-zero vector yields 0, and in the regular case the quotient formula is
returned. -/
theorem C6_cosine_edge_cases_witness :
    cosine_similarity [(1 : ℝ)] [1, 0] = 0 ∧
    cosine_similarity [(0 : ℝ), 0] [3] = 0 ∧
    cosine_similarity [(2 : ℝ)] [3] =
      dotList [2] [3] / (Real.sqrt (sumSq [2]) * Real.sqrt (sumSq [3])) := by
  refine ⟨(C6_cosine_edge_cases [(1 : ℝ)] [1, 0]).1 (by simp),
          (C6_cosine_edge_cases [(0 : ℝ), 0] [3]).2.1 (by simp),
          (C6_cosine_edge_cases [(2 : ℝ)] [3]).2.2.2.2.2 (by simp) ?_ ?_⟩
  · have h4 : sumSq [(2 : ℝ)] = 4 := by simp [sumSq]; norm_num
    rw [h4]
    positivity
  · have h9 : sumSq [(3 : ℝ)] = 9 := by simp [sumSq]; norm_num
    rw [h9]
    positivity

/-- `bitlenAux` with sufficient fuel bounds its argument. -/
theorem bitlenAux_lt : ∀ (fuel n : Nat), n < 2 ^ fuel → n < 2 ^ bitlenAux fuel n := by
  intro fuel
  induction fuel with
  | zero => intro n h; exact h
  | succ f ih =>
      intro n h
      unfold bitlenAux
      by_cases hn : n = 0
      · subst hn; simp
      · rw [if_neg hn]
        have hp : (2 : Nat) ^ (f + 1) = 2 * 2 ^ f := by rw [pow_succ]; ring
        have h2 : n / 2 < 2 ^ f := by omega
        have h3 := ih (n / 2) h2
        have h4 : n < 2 * 2 ^ bitlenAux f (n / 2) := by omega
        calc n < 2 * 2 ^ bitlenAux f (n / 2) := h4
        _ = 2 ^ (bitlenAux f (n / 2) + 1) := by rw [pow_succ]; ring

/-- Any number below `2^64` is below `2^bitlen`. -/
theorem bitlen_lt (n : Nat) (h : n < 2 ^ 64) : n < 2 ^ bitlen n :=
  bitlenAux_lt 64 n h

/-- Round-to-nearest-even never exceeds the floor quotient by more
than 1. -/
theorem rne_le (n d : Nat) : rne n d ≤ n / d + 1 := by
  unfold rne
  dsimp only
  split
  · omega
  · split
    · omega
    · split <;> omega

/-- The packing step stays below `2^32` whenever the significand is at
most `2^24`. -/
theorem d2sFinish_lt (s r24 : Nat) (ee : Int) (hs : s ≤ 1) (hr : r24 ≤ 2 ^ 24) :
    d2sFinish s r24 ee < 2 ^ 32 := by
  unfold d2sFinish
  split
  · omega
  · rename_i hee
    have h127 : (ee + 127).toNat ≤ 254 := by
      rw [Int.toNat_le]
      omega
    omega

/-- The rounded significand of the normal path is at most `2^24`. -/
theorem d2sNormal_round_le (M : Nat) (exp2 : Int) (hM : M < 2 ^ 64) :
    (if exp2 - (((bitlen M : Int) - 1) + exp2 - 23) ≥ 0 then
        M * 2 ^ (exp2 - (((bitlen M : Int) - 1) + exp2 - 23)).toNat
      else rne M (2 ^ (-(exp2 - (((bitlen M : Int) - 1) + exp2 - 23))).toNat)) ≤
      2 ^ 24 := by
  have hMlt : M < 2 ^ bitlen M := bitlen_lt M hM
  have hd : exp2 - (((bitlen M : Int) - 1) + exp2 - 23) = 24 - (bitlen M : Int) := by
    ring
  rw [hd]
  split
  · rename_i hdpos
    have hble : bitlen M ≤ 24 := by omega
    have htn : ((24 : Int) - (bitlen M : Int)).toNat = 24 - bitlen M := by
      have h24 : (24 : Int) - (bitlen M : Int) = ((24 - bitlen M : Nat) : Int) := by
        push_cast [Nat.cast_sub hble]
        ring
      rw [h24, Int.toNat_ofNat]
    rw [htn]
    have hpow : (2 : Nat) ^ bitlen M * 2 ^ (24 - bitlen M) = 2 ^ 24 := by
      rw [← pow_add]
      congr 1
      omega
    have hmul : M * 2 ^ (24 - bitlen M) < 2 ^ bitlen M * 2 ^ (24 - bitlen M) :=
      Nat.mul_lt_mul_of_lt_of_le hMlt (Nat.le_refl _) (by positivity)
    omega
  · rename_i hdneg
    have hble : 24 < bitlen M := by omega
    have htn : (-((24 : Int) - (bitlen M : Int))).toNat = bitlen M - 24 := by
      have hneg : -((24 : Int) - (bitlen M : Int)) = ((bitlen M - 24 : Nat) : Int) := by
        push_cast [Nat.cast_sub (by omega : 24 ≤ bitlen M)]
        ring
      rw [hneg, Int.toNat_ofNat]
    rw [htn]
    have hq : M / 2 ^ (bitlen M - 24) < 2 ^ 24 := by
      refine Nat.div_lt_of_lt_mul ?_
      have hpow : (2 : Nat) ^ (bitlen M - 24) * 2 ^ 24 = 2 ^ bitlen M := by
        rw [← pow_add]
        congr 1
        omega
      omega
    have := rne_le M (2 ^ (bitlen M - 24))
    omega

/-- The normal path fits in 32 bits. -/
theorem d2sNormal_lt (s M : Nat) (exp2 : Int) (hs : s ≤ 1) (hM : M < 2 ^ 64) :
    d2sNormal s M exp2 < 2 ^ 32 := by
  unfold d2sNormal
  dsimp only
  generalize hrdef : (if exp2 - (((bitlen M : Int) - 1) + exp2 - 23) ≥ 0 then
      M * 2 ^ (exp2 - (((bitlen M : Int) - 1) + exp2 - 23)).toNat
    else rne M (2 ^ (-(exp2 - (((bitlen M : Int) - 1) + exp2 - 23))).toNat)) = r
  have hr : r ≤ 2 ^ 24 := hrdef ▸ d2sNormal_round_le M exp2 hM
  split
  · exact d2sFinish_lt _ _ _ hs (by norm_num)
  · exact d2sFinish_lt _ _ _ hs hr

/-- The subnormal path fits in 32 bits (given the path condition that the
value's exponent is below the normal range). -/
theorem d2sSub_lt (s M : Nat) (exp2 : Int) (hs : s ≤ 1) (hM : M < 2 ^ 64)
    (hlow : ((bitlen M : Int) - 1) + exp2 < -126) :
    d2sSub s M exp2 < 2 ^ 32 := by
  unfold d2sSub
  have hMlt : M < 2 ^ bitlen M := bitlen_lt M hM
  have hk : (bitlen M : Int) ≤ ((-(exp2 + 149)).toNat : Int) + 23 := by
    have := Int.self_le_toNat (-(exp2 + 149))
    omega
  have hkn : bitlen M ≤ (-(exp2 + 149)).toNat + 23 := by exact_mod_cast hk
  have hq : M / 2 ^ (-(exp2 + 149)).toNat < 2 ^ 23 := by
    refine Nat.div_lt_of_lt_mul ?_
    have hpow : (2 : Nat) ^ (-(exp2 + 149)).toNat * 2 ^ 23 =
        2 ^ ((-(exp2 + 149)).toNat + 23) := by
      rw [← pow_add]
    have hmono : (2 : Nat) ^ bitlen M ≤ 2 ^ ((-(exp2 + 149)).toNat + 23) :=
      Nat.pow_le_pow_right (by norm_num) hkn
    omega
  have := rne_le M (2 ^ (-(exp2 + 149)).toNat)
  omega

/-- The finite nonzero path fits in 32 bits. -/
theorem d2sFin_lt (s M : Nat) (exp2 : Int) (hs : s ≤ 1) (hM : M < 2 ^ 64) :
    d2sFin s M exp2 < 2 ^ 32 := by
  unfold d2sFin
  split
  · exact d2sNormal_lt s M exp2 hs hM
  · rename_i h
    exact d2sSub_lt s M exp2 hs hM (by omega)

/-- The binary32 pattern produced for any binary64 pattern fits in 32
bits. -/
theorem doubleToSingle_lt (b : Nat) : doubleToSingle b < 2 ^ 32 := by
  unfold doubleToSingle
  dsimp only
  have hs : b / 2 ^ 63 % 2 ≤ 1 := by omega
  split
  · split
    · omega
    · have hm52 : b % 2 ^ 52 < 2 ^ 52 := by omega
      have hdiv : b % 2 ^ 52 / 2 ^ 29 < 2 ^ 23 :=
        Nat.div_lt_of_lt_mul (by norm_num at hm52 ⊢; omega)
      have hor : b % 2 ^ 52 / 2 ^ 29 ||| 2 ^ 22 < 2 ^ 23 :=
        Nat.or_lt_two_pow hdiv (by norm_num)
      omega
  · split
    · split
      · omega
      · exact d2sFin_lt _ _ _ hs (by omega)
    · split
      · omega
      · exact d2sFin_lt _ _ _ hs (by omega)

/-- The encoded blob carries 4 bytes per vector component. -/
theorem encode_bytes_length (v : List Nat) :
    (v.flatMap (fun b => le4 (doubleToSingle b))).length = 4 * v.length := by
  induction v with
  | nil => rfl
  | cons b v ih =>
      rw [List.flatMap_cons, List.length_append, ih]
      simp only [le4, List.length_cons, List.length_nil]
      omega

/-- Splitting the encoded blob into little-endian words recovers exactly
the binary32 patterns. -/
theorem words4_encode (v : List Nat) :
    words4 (v.flatMap (fun b => le4 (doubleToSingle b))) =
      some (v.map doubleToSingle) := by
  induction v with
  | nil => rfl
  | cons b v ih =>
      have hb := doubleToSingle_lt b
      have hw : doubleToSingle b % 256 + 256 * (doubleToSingle b / 256 % 256 +
          256 * (doubleToSingle b / 65536 % 256 +
            256 * (doubleToSingle b / 16777216 % 256))) = doubleToSingle b := by
        omega
      rw [List.flatMap_cons]
      have hshape : le4 (doubleToSingle b) ++ (v.flatMap fun x => le4 (doubleToSingle x)) =
          doubleToSingle b % 256 :: doubleToSingle b / 256 % 256 ::
          doubleToSingle b / 65536 % 256 :: doubleToSingle b / 16777216 % 256 ::
          (v.flatMap fun x => le4 (doubleToSingle x)) := rfl
      rw [hshape]
      simp only [words4, ih, Option.map_some', hw, List.map_cons]

/-- Claim C10 (confirmed): the embedding storage round trip.  Whenever
`encode_embedding` succeeds (`struct.pack` raises `OverflowError` for a
finite component too large for binary32, so success is part of the
hypothesis), the blob holds exactly 4 bytes per dimension — so the stored
width is determined by, and recoverable from, the blob length — and
decoding gives back a vector of the same length whose `i`-th component is
the `i`-th input rounded to 32-bit float precision (`doubleToSingle`,
round to nearest / ties to even, widened back exactly by
`singleToDouble`). -/
theorem C10_embedding_roundtrip (v blob : List Nat)
    (h : encode_embedding v = some blob) :
    blob.length = 4 * v.length ∧
    decode_embedding blob =
      some (v.map (fun b => singleToDouble (doubleToSingle b))) := by
  unfold encode_embedding at h
  by_cases hp : v.all float32Packable
  · rw [if_pos hp] at h
    obtain rfl : v.flatMap (fun b => le4 (doubleToSingle b)) = blob :=
      Option.some.inj h
    refine ⟨encode_bytes_length v, ?_⟩
    unfold decode_embedding
    rw [words4_encode]
    simp [List.map_map, Function.comp]
  · rw [if_neg hp] at h
    exact absurd h (by simp)

/-- Witness for C10 at the concrete vector `[1.0, 0.1]` (binary64
patterns): the blob is the 8 little-endian bytes of `1.0f` and `0.1f`, and
decoding widens them back. -/
theorem C10_embedding_roundtrip_witness :
    ([0, 0, 128, 63, 205, 204, 204, 61] : List Nat).length =
      4 * ([0x3FF0000000000000, 0x3FB999999999999A] : List Nat).length ∧
    decode_embedding [0, 0, 128, 63, 205, 204, 204, 61] =
      some (([0x3FF0000000000000, 0x3FB999999999999A] : List Nat).map
        (fun b => singleToDouble (doubleToSingle b))) :=
  C10_embedding_roundtrip [0x3FF0000000000000, 0x3FB999999999999A]
    [0, 0, 128, 63, 205, 204, 204, 61] (by decide)

/-- `chunksOfAux` does not depend on the fuel once it covers the list. -/
theorem chunksOfAux_fuel (B : Nat) (hB : 0 < B) :
    ∀ (n : Nat) (l : List α) (f1 f2 : Nat), l.length = n →
      l.length ≤ f1 → l.length ≤ f2 →
      chunksOfAux B f1 l = chunksOfAux B f2 l := by
  intro n
  induction n using Nat.strong_induction_on with
  | _ n ih =>
      intro l f1 f2 hn h1 h2
      cases l with
      | nil => cases f1 <;> cases f2 <;> rfl
      | cons x xs =>
          cases f1 with
          | zero => simp at h1
          | succ g1 =>
              cases f2 with
              | zero => simp at h2
              | succ g2 =>
                  show (x :: xs).take B :: chunksOfAux B g1 ((x :: xs).drop B) =
                       (x :: xs).take B :: chunksOfAux B g2 ((x :: xs).drop B)
                  congr 1
                  refine ih ((x :: xs).drop B).length ?_ _ g1 g2 rfl ?_ ?_ <;>
                    (rw [List.length_drop];
                     simp only [List.length_cons] at hn h1 h2 ⊢; omega)

/-- Unfolding step of `chunksOf` on a nonempty list. -/
theorem chunksOf_cons (B : Nat) (hB : 0 < B) (x : α) (xs : List α) :
    chunksOf B (x :: xs) = (x :: xs).take B :: chunksOf B ((x :: xs).drop B) := by
  show chunksOfAux B (x :: xs).length (x :: xs) =
    (x :: xs).take B :: chunksOfAux B ((x :: xs).drop B).length ((x :: xs).drop B)
  have hstep : chunksOfAux B (x :: xs).length (x :: xs) =
      (x :: xs).take B :: chunksOfAux B xs.length ((x :: xs).drop B) := rfl
  rw [hstep]
  congr 1
  refine chunksOfAux_fuel B hB ((x :: xs).drop B).length _ _ _ rfl ?_ (Nat.le_refl _)
  rw [List.length_drop]
  simp only [List.length_cons]
  omega

/-- Unfolding step of `chunksOf` on a list known nonempty. -/
theorem chunksOf_cons' (B : Nat) (hB : 0 < B) (l : List α) (hne : l ≠ []) :
    chunksOf B l = l.take B :: chunksOf B (l.drop B) := by
  cases l with
  | nil => exact absurd rfl hne
  | cons x xs => exact chunksOf_cons B hB x xs

/-- Batching then flattening is the identity. -/
theorem chunksOf_flatten (B : Nat) (hB : 0 < B) :
    ∀ l : List α, (chunksOf B l).flatten = l := by
  intro l
  generalize hn : l.length = n
  induction n using Nat.strong_induction_on generalizing l with
  | _ n ih =>
      cases l with
      | nil => rfl
      | cons x xs =>
          rw [chunksOf_cons B hB, List.flatten_cons]
          have hlt : ((x :: xs).drop B).length < n := by
            rw [List.length_drop]
            simp only [List.length_cons] at hn ⊢
            omega
          rw [ih _ hlt _ rfl, List.take_append_drop]

/-- The batch-request loop computes, per batch in order, the segment that
batch contributes, flattened; the request trace is exactly the batch
list. -/
theorem getBatchAux_spec (svc : List String → Resp) (B : Nat) (hB : 0 < B) :
    ∀ (fuel : Nat) (ts : List String), ts.length ≤ fuel →
      getBatchAux svc B fuel ts =
        (((chunksOf B ts).map (respSeg svc)).flatten, chunksOf B ts) := by
  intro fuel
  induction fuel with
  | zero =>
      intro ts hts
      have : ts = [] := List.length_eq_zero.mp (Nat.le_zero.mp hts)
      subst this
      rfl
  | succ f ih =>
      intro ts hts
      cases ts with
      | nil => rfl
      | cons t ts' =>
          unfold getBatchAux
          dsimp only
          have hrest : ((t :: ts').drop B).length ≤ f := by
            rw [List.length_drop]
            simp only [List.length_cons] at hts ⊢
            omega
          rw [ih _ hrest, chunksOf_cons B hB]
          simp [List.flatten_cons]

/-- `get_ollama_embeddings_batch`, described batch-wise. -/
theorem getBatch_eq (svc : List String → Resp) (texts : List String) (B : Nat)
    (hB : 0 < B) :
    get_ollama_embeddings_batch svc texts B =
      (((chunksOf B texts).map (respSeg svc)).flatten, chunksOf B texts) :=
  getBatchAux_spec svc B hB texts.length texts (Nat.le_refl _)

/-- Every batch segment has one entry per batch member, given the service
contract that a success returns one embedding per input. -/
theorem respSeg_length (svc : List String → Resp)
    (hc : ∀ ts es, svc ts = Resp.ok es → es.length = ts.length)
    (b : List String) : (respSeg svc b).length = b.length := by
  unfold respSeg
  cases h : svc b with
  | ok es => rw [List.length_map]; exact hc b es h
  | noKey => exact List.length_replicate _ _
  | urlError => exact List.length_replicate _ _
  | jsonError => exact List.length_replicate _ _

/-- Flattening per-batch segments preserves the total element count. -/
theorem flatten_map_length (f : List String → List γ)
    (hf : ∀ b, (f b).length = b.length) :
    ∀ ls : List (List String), ((ls.map f).flatten).length = ls.flatten.length := by
  intro ls
  induction ls with
  | nil => rfl
  | cons b rest ih =>
      simp only [List.map_cons, List.flatten_cons, List.length_append, ih, hf]

/-- Position `j * B + i` of the flattened segments reads entry `i` of
segment `j`, provided batches before `j` are full and segments have batch
lengths. -/
theorem flatten_map_get? (B : Nat) (f : List String → List γ)
    (hf : ∀ b, (f b).length = b.length) :
    ∀ (ls : List (List String)) (j : Nat) (b : List String),
      (∀ k bk, k < j → ls.get? k = some bk → bk.length = B) →
      ls.get? j = some b →
      ∀ i, i < b.length →
        ((ls.map f).flatten).get? (j * B + i) = (f b).get? i := by
  intro ls
  induction ls with
  | nil => intro j b _ hj; cases j <;> cases hj
  | cons b0 rest ih =>
      intro j b hfull hj i hi
      cases j with
      | zero =>
          obtain rfl : b0 = b := by simpa using hj
          simp only [List.map_cons, List.flatten_cons]
          rw [Nat.zero_mul, Nat.zero_add]
          exact List.get?_append (by rw [hf]; exact hi)
      | succ k =>
          have hb0 : b0.length = B := hfull 0 b0 (Nat.succ_pos k) rfl
          simp only [List.map_cons, List.flatten_cons]
          have hpos : (k + 1) * B + i = (f b0).length + (k * B + i) := by
            rw [hf, hb0]
            ring
          rw [hpos, List.get?_append_right (Nat.le_add_right _ _),
              Nat.add_sub_cancel_left]
          exact ih k b (fun k' bk hk' hbk => hfull (k' + 1) bk (by omega) hbk) hj i hi

/-- In `chunksOf B l`, every batch before another batch is full. -/
theorem chunksOf_full (B : Nat) (hB : 0 < B) :
    ∀ (l : List α) (k : Nat) (bk : List α) (j : Nat) (b : List α), k < j →
      (chunksOf B l).get? k = some bk → (chunksOf B l).get? j = some b →
      bk.length = B := by
  intro l
  generalize hn : l.length = n
  induction n using Nat.strong_induction_on generalizing l with
  | _ n ih =>
      intro k bk j b hkj hk hj
      cases l with
      | nil => cases k <;> cases hk
      | cons x xs =>
          rw [chunksOf_cons B hB] at hk hj
          cases k with
          | zero =>
              obtain rfl : (x :: xs).take B = bk := by simpa using hk
              -- batch j > 0 exists, so the tail is nonempty and the head
              -- batch is full
              cases j with
              | zero => omega
              | succ j' =>
                  have hj' : (chunksOf B ((x :: xs).drop B)).get? j' = some b := by
                    simpa using hj
                  have hne : (x :: xs).drop B ≠ [] := by
                    intro hempty
                    rw [hempty] at hj'
                    cases j' <;> cases hj'
                  have hlen : B < (x :: xs).length := by
                    by_contra hle
                    exact hne (List.drop_eq_nil_of_le (by omega))
                  rw [List.length_take]
                  omega
          | succ k' =>
              cases j with
              | zero => omega
              | succ j' =>
                  have hlt : ((x :: xs).drop B).length < n := by
                    rw [List.length_drop]
                    simp only [List.length_cons] at hn ⊢
                    omega
                  exact ih _ hlt _ rfl k' bk j' b (by omega)
                    (by simpa using hk) (by simpa using hj)

/-- Claim C3 (confirmed): batch-scoped degradation.  Under the service
contract (a success response carries one embedding per input), the batch
loop requests exactly the consecutive batches, once each and in order (no
retry); the batches partition the texts; the run produces an outcome for
every text (it is not aborted); a batch whose response is a transport
error, JSON-decode error or missing-`embeddings`-key body contributes
`None` for every one of its members; and a successful batch contributes
its embeddings positionally — so batches after a failed one are processed
normally. -/
theorem C3_batch_failure_isolation (svc : List String → Resp)
    (texts : List String) (B : Nat) (hB : 0 < B)
    (hc : ∀ ts es, svc ts = Resp.ok es → es.length = ts.length) :
    (get_ollama_embeddings_batch svc texts B).2 = chunksOf B texts ∧
    (chunksOf B texts).flatten = texts ∧
    (get_ollama_embeddings_batch svc texts B).1.length = texts.length ∧
    (∀ j b, (chunksOf B texts).get? j = some b → (svc b).isFailure = true →
      ∀ i, i < b.length →
        (get_ollama_embeddings_batch svc texts B).1.get? (j * B + i) = some none) ∧
    (∀ j b es, (chunksOf B texts).get? j = some b → svc b = Resp.ok es →
      ∀ i, i < b.length →
        (get_ollama_embeddings_batch svc texts B).1.get? (j * B + i) =
          (es.get? i).map some) := by
  rw [getBatch_eq svc texts B hB]
  refine ⟨rfl, chunksOf_flatten B hB texts, ?_, ?_, ?_⟩
  · rw [flatten_map_length (respSeg svc) (respSeg_length svc hc),
        chunksOf_flatten B hB texts]
  · intro j b hj hfail i hi
    rw [flatten_map_get? B (respSeg svc) (respSeg_length svc hc) _ j b
        (fun k bk hk hbk => chunksOf_full B hB texts k bk j b hk hbk hj) hj i hi]
    unfold respSeg
    cases h : svc b with
    | ok es => rw [h] at hfail; cases hfail
    | noKey => rw [List.get?_eq_getElem?]; simp [List.getElem?_replicate, hi]
    | urlError => rw [List.get?_eq_getElem?]; simp [List.getElem?_replicate, hi]
    | jsonError => rw [List.get?_eq_getElem?]; simp [List.getElem?_replicate, hi]
  · intro j b es hj hok i hi
    rw [flatten_map_get? B (respSeg svc) (respSeg_length svc hc) _ j b
        (fun k bk hk hbk => chunksOf_full B hB texts k bk j b hk hbk hj) hj i hi]
    unfold respSeg
    rw [hok]
    exact List.get?_map some es i

/-- Witness for C3: five texts in batches of two, where the service
fails (transport error) exactly on the second batch: both members of
that batch come back `None`, and the third batch still gets its
embedding. -/
theorem C3_batch_failure_isolation_witness :
    0 < 2 ∧
    (get_ollama_embeddings_batch
        (fun ts => if ts.contains "t2" then Resp.urlError
                   else Resp.ok (ts.map fun _ => [1]))
        ["t0", "t1", "t2", "t3", "t4"] 2).1.get? 2 = some none ∧
    (get_ollama_embeddings_batch
        (fun ts => if ts.contains "t2" then Resp.urlError
                   else Resp.ok (ts.map fun _ => [1]))
        ["t0", "t1", "t2", "t3", "t4"] 2).1.get? 3 = some none ∧
    (get_ollama_embeddings_batch
        (fun ts => if ts.contains "t2" then Resp.urlError
                   else Resp.ok (ts.map fun _ => [1]))
        ["t0", "t1", "t2", "t3", "t4"] 2).1.get? 4 =
      (([[1]] : List (List Nat)).get? 0).map some := by
  have hc : ∀ ts es, (fun ts => if List.contains ts "t2" then Resp.urlError
      else Resp.ok (ts.map fun _ => ([1] : List Nat))) ts = Resp.ok es →
      es.length = ts.length := by
    intro ts es h
    dsimp only at h
    by_cases hm : ts.contains "t2"
    · rw [if_pos hm] at h
      exact Resp.noConfusion h
    · rw [if_neg hm] at h
      injection h with h2
      rw [← h2, List.length_map]
  have hthm := C3_batch_failure_isolation
    (fun ts => if ts.contains "t2" then Resp.urlError
               else Resp.ok (ts.map fun _ => [1]))
    ["t0", "t1", "t2", "t3", "t4"] 2 (by decide) hc
  refine ⟨by decide, ?_, ?_, ?_⟩
  · exact hthm.2.2.2.1 1 ["t2", "t3"] (by decide) (by decide) 0 (by decide)
  · exact hthm.2.2.2.1 1 ["t2", "t3"] (by decide) (by decide) 1 (by decide)
  · exact hthm.2.2.2.2 2 ["t4"] [[1]] (by decide) (by decide) 0 (by decide)

/-- A nonempty list of at most `B` elements is a single batch. -/
theorem chunksOf_small (B : Nat) (hB : 0 < B) (l : List α) (hne : l ≠ [])
    (hle : l.length ≤ B) : chunksOf B l = [l] := by
  cases l with
  | nil => exact absurd rfl hne
  | cons x xs =>
      rw [chunksOf_cons B hB]
      have hdrop : (x :: xs).drop B = [] := List.drop_eq_nil_of_le hle
      rw [hdrop, List.take_of_length_le hle]
      rfl

/-- Inserting a batch with its per-member embeddings is the plain indexed
upsert fold. -/
theorem insertBatch_success (f : String → List Nat) :
    ∀ (batch : List ChunkJson) (db : Store ChunkJson) (s : Nat),
      insertBatchChunks db batch (((batch.map embedTextOf).map f).map some) s =
        foldInserts f db s batch := by
  intro batch
  induction batch with
  | nil => intro db s; rfl
  | cons c rest ih =>
      intro db s
      simp only [List.map_cons, insertBatchChunks, List.head?_cons, List.tail_cons]
      exact ih _ (s + 1)

/-- The indexed upsert fold splits over list append. -/
theorem foldInserts_append (f : String → List Nat) :
    ∀ (l1 l2 : List ChunkJson) (db : Store ChunkJson) (s : Nat),
      foldInserts f db s (l1 ++ l2) =
        foldInserts f (foldInserts f db s l1) (s + l1.length) l2 := by
  intro l1
  induction l1 with
  | nil => intro l2 db s; simp [foldInserts]
  | cons c rest ih =>
      intro l2 db s
      have hstep : foldInserts f db s ((c :: rest) ++ l2) =
          foldInserts f (insertOrReplace db (successRow f s c)) (s + 1) (rest ++ l2) := rfl
      have hstep2 : foldInserts f db s (c :: rest) =
          foldInserts f (insertOrReplace db (successRow f s c)) (s + 1) rest := rfl
      rw [hstep, ih, hstep2]
      congr 1
      simp only [List.length_cons]
      omega

/-- The streaming embed loop under an all-success service is the plain
indexed upsert fold over the chunks from the start index on, and its
request trace is exactly the batches of their embed texts. -/
theorem embedFromAux_spec (f : String → List Nat) (B : Nat) (hB : 0 < B)
    (chunks : List ChunkJson) :
    ∀ (fuel : Nat) (db : Store ChunkJson) (s : Nat),
      chunks.length - s ≤ fuel →
      embedFromAux (fun ts => Resp.ok (ts.map f)) B chunks fuel db s =
        (foldInserts f db s (chunks.drop s),
         (chunksOf B (chunks.drop s)).map (List.map embedTextOf)) := by
  intro fuel
  induction fuel with
  | zero =>
      intro db s hfuel
      have hdrop : chunks.drop s = [] := List.drop_eq_nil_of_le (by omega)
      rw [embedFromAux, hdrop]
      rfl
  | succ fl ih =>
      intro db s hfuel
      unfold embedFromAux
      dsimp only
      by_cases hlt : s < chunks.length
      · rw [if_pos hlt]
        have hne : chunks.drop s ≠ [] := by
          intro h
          have := List.drop_eq_nil_iff_le.mp h
          omega
        have hbatchlen : ((chunks.drop s).take B).length ≤ B := by
          rw [List.length_take]
          omega
        have hbatchne : (chunks.drop s).take B ≠ [] := by
          intro h
          have h2 : ((chunks.drop s).take B).length = 0 := by rw [h]; rfl
          rw [List.length_take, List.length_drop] at h2
          omega
        have htexts : ((chunks.drop s).take B).map embedTextOf ≠ [] := by
          intro h
          exact hbatchne (List.map_eq_nil.mp h)
        have htextlen : (((chunks.drop s).take B).map embedTextOf).length ≤ B := by
          rw [List.length_map]
          exact hbatchlen
        rw [getBatch_eq _ _ _ hB,
            chunksOf_small B hB _ htexts htextlen]
        simp only [List.map_cons, List.map_nil, List.flatten_cons, List.flatten_nil,
          List.append_nil]
        have hseg : respSeg (fun ts => Resp.ok (ts.map f))
            (((chunks.drop s).take B).map embedTextOf) =
            ((((chunks.drop s).take B).map embedTextOf).map f).map some := rfl
        rw [hseg, insertBatch_success f]
        rw [ih _ (s + B) (by omega)]
        dsimp only
        have hdd : chunks.drop (s + B) = (chunks.drop s).drop B := by
          rw [List.drop_drop]
        rw [hdd]
        congr 1
        · conv_rhs => rw [← List.take_append_drop B (chunks.drop s)]
          rw [foldInserts_append]
          by_cases hfull : B ≤ chunks.length - s
          · have hblen : ((chunks.drop s).take B).length = B := by
              rw [List.length_take, List.length_drop]
              omega
            rw [hblen]
          · have hnil : (chunks.drop s).drop B = [] := by
              refine List.drop_eq_nil_of_le ?_
              rw [List.length_drop]
              omega
            rw [hnil]
            rfl
        · conv_rhs => rw [chunksOf_cons' B hB _ hne]
          simp only [List.map_cons]
          rfl
      · rw [if_neg hlt]
        have hdrop : chunks.drop s = [] := List.drop_eq_nil_of_le (by omega)
        rw [hdrop]
        rfl

/-- The embed loop under an all-success service, with ample fuel. -/
theorem embedFrom_spec (f : String → List Nat) (B : Nat) (hB : 0 < B)
    (db : Store ChunkJson) (chunks : List ChunkJson) (s : Nat) :
    embedFrom (fun ts => Resp.ok (ts.map f)) B db chunks s =
      (foldInserts f db s (chunks.drop s),
       (chunksOf B (chunks.drop s)).map (List.map embedTextOf)) :=
  embedFromAux_spec f B hB chunks (chunks.length + 1) db s (by omega)

/-- An upsert whose id is fresh appends a row (the REPLACE path is not
taken). -/
theorem insertOrReplace_fresh (st : Store ChunkJson) (d : RowData ChunkJson)
    (h : ∀ r ∈ st.chunks, r.data.recId ≠ d.recId) :
    (insertOrReplace st d).chunks =
      st.chunks ++ [{ rowid := maxRowid st.chunks + 1, data := d }] := by
  unfold insertOrReplace
  have hf : st.chunks.find? (fun r => r.data.recId == d.recId) = none := by
    rw [List.find?_eq_none]
    intro r hr
    simpa using h r hr
  rw [hf]

/-- `idsFrom` splits over append. -/
theorem idsFrom_append :
    ∀ (l1 l2 : List ChunkJson) (s : Nat),
      idsFrom s (l1 ++ l2) = idsFrom s l1 ++ idsFrom (s + l1.length) l2 := by
  intro l1
  induction l1 with
  | nil => intro l2 s; simp [idsFrom]
  | cons c rest ih =>
      intro l2 s
      have hstep : idsFrom s ((c :: rest) ++ l2) =
          chunkIdAt s c :: idsFrom (s + 1) (rest ++ l2) := rfl
      have hstep2 : idsFrom s (c :: rest) =
          chunkIdAt s c :: idsFrom (s + 1) rest := rfl
      rw [hstep, hstep2, ih, List.cons_append, List.length_cons]
      have hidx : s + 1 + rest.length = s + (rest.length + 1) := by omega
      rw [hidx]

/-- A fully successful upsert fold from fresh, pairwise distinct ids
appends one row per chunk, each with a non-null embedding: the id column
extends by exactly `idsFrom s l` and the embedded-row count grows by the
chunk count. -/
theorem foldInserts_ids (f : String → List Nat)
    (hpack : ∀ t, ((f t).all float32Packable) = true) :
    ∀ (l : List ChunkJson) (db : Store ChunkJson) (s : Nat),
      (∀ id ∈ idsFrom s l, id ∉ db.chunks.map (fun r => r.data.recId)) →
      (idsFrom s l).Nodup →
      (foldInserts f db s l).chunks.map (fun r => r.data.recId) =
        db.chunks.map (fun r => r.data.recId) ++ idsFrom s l ∧
      embeddedCount (foldInserts f db s l) = embeddedCount db + l.length := by
  intro l
  induction l with
  | nil =>
      intro db s _ _
      exact ⟨by simp [foldInserts, idsFrom], by simp [foldInserts]⟩
  | cons c rest ih =>
      intro db s hdisj hnd
      rw [show idsFrom s (c :: rest) =
          chunkIdAt s c :: idsFrom (s + 1) rest from rfl] at hnd hdisj
      have hfresh : ∀ r ∈ db.chunks, r.data.recId ≠ (successRow f s c).recId := by
        intro r hr heq
        apply hdisj (chunkIdAt s c) (List.mem_cons_self _ _)
        rw [List.mem_map]
        exact ⟨r, hr, heq⟩
      have hrow := insertOrReplace_fresh db (successRow f s c) hfresh
      have hids1 : (insertOrReplace db (successRow f s c)).chunks.map
          (fun r => r.data.recId) =
          db.chunks.map (fun r => r.data.recId) ++ [chunkIdAt s c] := by
        rw [hrow, List.map_append]
        rfl
      have hembS : (encode_embedding (f (embedTextOf c))).isSome = true := by
        unfold encode_embedding
        rw [if_pos (hpack _)]
        rfl
      have hcount1 : embeddedCount (insertOrReplace db (successRow f s c)) =
          embeddedCount db + 1 := by
        unfold embeddedCount
        rw [hrow, List.filter_append, List.length_append]
        congr 1
        simp only [successRow, rowOfChunk, List.filter, hembS]
        rfl
      have hstep : foldInserts f db s (c :: rest) =
          foldInserts f (insertOrReplace db (successRow f s c)) (s + 1) rest := rfl
      rw [List.nodup_cons] at hnd
      have hdisj' : ∀ id ∈ idsFrom (s + 1) rest,
          id ∉ (insertOrReplace db (successRow f s c)).chunks.map
            (fun r => r.data.recId) := by
        intro id hid hmem
        rw [hids1, List.mem_append] at hmem
        cases hmem with
        | inl hold => exact hdisj id (List.mem_cons_of_mem _ hid) hold
        | inr hnew =>
            have : id = chunkIdAt s c := by simpa using hnew
            exact hnd.1 (this ▸ hid)
      obtain ⟨hidsr, hcountr⟩ := ih (insertOrReplace db (successRow f s c)) (s + 1)
        hdisj' hnd.2
      refine ⟨?_, ?_⟩
      · rw [hstep, hidsr, hids1, List.append_assoc]
        rfl
      · rw [hstep, hcountr, hcount1, List.length_cons]
        omega

/-- Flattening per-batch text lists is mapping over the flattened
batches. -/
theorem flatten_map_embedText (L : List (List ChunkJson)) :
    (L.map (List.map embedTextOf)).flatten = L.flatten.map embedTextOf := by
  induction L with
  | nil => rfl
  | cons x xs ih =>
      rw [List.map_cons, List.flatten_cons, ih, List.flatten_cons, List.map_append]

/-- Claim C4 (confirmed): resume correctness of `embed_chunks`.  With a
deterministic, always-successful embedding service (one binary32-packable
vector per text — the claim's normal-service scenario) and pairwise
distinct record ids, for any crash state `db1` — the durable store after
some whole number `k` of leading batches, since commits happen only at
batch boundaries — the resume invocation:
(1) starts at offset `embeddedCount db1` (`embed_chunks_resume` is
defined by the source's `COUNT(*) ... WHERE embedding IS NOT NULL`
query), which equals the number `t` of chunks already processed;
(2) produces exactly the final store of an uninterrupted run, and its
request trace is the batches of the chunks from `t` on — so records
before the offset are never re-sent;
(3) sends each remaining record's embed text exactly once (the flattened
trace lists the texts of `chunks[t:]` in order, one each);
(4) ends with every one of the `N` records embedded, the same final
embedded-record count as the uninterrupted run. -/
theorem C4_resume_correctness (f : String → List Nat) (chunks : List ChunkJson)
    (B k : Nat) (hB : 0 < B)
    (hids : (idsFrom 0 chunks).Nodup)
    (hpack : ∀ st, ((f st).all float32Packable) = true)
    (svc : List String → Resp) (hsvc : svc = fun ts => Resp.ok (ts.map f))
    (t : Nat) (ht : t = min (k * B) chunks.length)
    (db1 : Store ChunkJson)
    (hdb1 : db1 = (embedFrom svc B Store.empty (chunks.take t) 0).1) :
    embeddedCount db1 = t ∧
    embed_chunks_resume svc B db1 chunks =
      ((embedFrom svc B Store.empty chunks 0).1,
       (chunksOf B (chunks.drop t)).map (List.map embedTextOf)) ∧
    (embed_chunks_resume svc B db1 chunks).2.flatten =
      (chunks.drop t).map embedTextOf ∧
    embeddedCount (embed_chunks_resume svc B db1 chunks).1 = chunks.length ∧
    embeddedCount (embedFrom svc B Store.empty chunks 0).1 = chunks.length := by
  subst hsvc
  have htle : t ≤ chunks.length := by omega
  have htake_len : (chunks.take t).length = t := by
    rw [List.length_take]
    omega
  have hrunA : embedFrom (fun ts => Resp.ok (ts.map f)) B Store.empty chunks 0 =
      (foldInserts f Store.empty 0 chunks,
       (chunksOf B chunks).map (List.map embedTextOf)) := by
    rw [embedFrom_spec f B hB, List.drop_zero]
  have hrun1 : embedFrom (fun ts => Resp.ok (ts.map f)) B Store.empty
      (chunks.take t) 0 =
      (foldInserts f Store.empty 0 (chunks.take t),
       (chunksOf B (chunks.take t)).map (List.map embedTextOf)) := by
    rw [embedFrom_spec f B hB, List.drop_zero]
  have hdb1v : db1 = foldInserts f Store.empty 0 (chunks.take t) := by
    rw [hdb1, hrun1]
  have hsplitIds : idsFrom 0 chunks =
      idsFrom 0 (chunks.take t) ++ idsFrom t (chunks.drop t) := by
    conv_lhs => rw [← List.take_append_drop t chunks]
    rw [idsFrom_append, htake_len, Nat.zero_add]
  have hndtake : (idsFrom 0 (chunks.take t)).Nodup := by
    rw [hsplitIds] at hids
    exact List.Nodup.of_append_left hids
  have hnone : ∀ id ∈ idsFrom 0 (chunks.take t),
      id ∉ (Store.empty : Store ChunkJson).chunks.map (fun r => r.data.recId) := by
    intro id _ hmem
    cases hmem
  have hc1 : embeddedCount (foldInserts f Store.empty 0 (chunks.take t)) = t := by
    obtain ⟨-, hcount⟩ :=
      foldInserts_ids f hpack (chunks.take t) Store.empty 0 hnone hndtake
    rw [hcount, htake_len]
    simp [embeddedCount, Store.empty]
  have hoffset : embeddedCount db1 = t := by rw [hdb1v]; exact hc1
  have hstores : foldInserts f db1 t (chunks.drop t) =
      foldInserts f Store.empty 0 chunks := by
    conv_rhs => rw [← List.take_append_drop t chunks]
    rw [foldInserts_append, htake_len, Nat.zero_add, hdb1v]
  have hresume : embed_chunks_resume (fun ts => Resp.ok (ts.map f)) B db1 chunks =
      (foldInserts f Store.empty 0 chunks,
       (chunksOf B (chunks.drop t)).map (List.map embedTextOf)) := by
    unfold embed_chunks_resume
    rw [hoffset, embedFrom_spec f B hB, hstores]
  have hnoneFull : ∀ id ∈ idsFrom 0 chunks,
      id ∉ (Store.empty : Store ChunkJson).chunks.map (fun r => r.data.recId) := by
    intro id _ hmem
    cases hmem
  have hcFull : embeddedCount (foldInserts f Store.empty 0 chunks) = chunks.length := by
    obtain ⟨-, hcount⟩ := foldInserts_ids f hpack chunks Store.empty 0 hnoneFull hids
    rw [hcount]
    simp [embeddedCount, Store.empty]
  refine ⟨hoffset, ?_, ?_, ?_, ?_⟩
  · rw [hresume, hrunA]
  · rw [hresume]
    rw [flatten_map_embedText, chunksOf_flatten B hB]
  · rw [hresume]
    exact hcFull
  · rw [hrunA]
    exact hcFull

/-- C4 at a concrete input: three chunks with distinct ids, batch size 2,
crash after the first full batch (`k = 1`, so 2 records are durable); the
resume offset is 2 and the resumed run ends with all 3 records embedded. -/
theorem C4_resume_correctness_witness :
    (idsFrom 0 c4chunks).Nodup ∧
    embeddedCount ((embedFrom c4svc 2 Store.empty (c4chunks.take 2) 0).1) = 2 ∧
    embeddedCount ((embed_chunks_resume c4svc 2
      ((embedFrom c4svc 2 Store.empty (c4chunks.take 2) 0).1) c4chunks).1) =
      c4chunks.length := by
  have h := C4_resume_correctness (fun _ => [0]) c4chunks 2 1 (by decide)
    (by decide) (fun _ => rfl) c4svc rfl 2 (by decide)
    ((embedFrom c4svc 2 Store.empty (c4chunks.take 2) 0).1) rfl
  exact ⟨by decide, h.1, h.2.2.2.1⟩

end StatuteRag
